import Mathlib

/-!
Verification of the Rayleigh post-processing binary reader
(`post_processing/rayleigh.py`).

The development shallowly embeds the reader's decoding layer:

* byte-order detection (`BaseFile.get_endian`) over a raw byte stream;
* the two byte-source backends of `BaseFile.get_value` (memory-mapped
  buffer vs sequential stream) and their array layouts;
* the format decoders (`Spherical_3D_grid`, `Shell_Avgs_file`,
  `PDE_Coefficients`, `Meridional_Slices_file`) over a stream of typed
  entries (4-byte signed integers and 8-byte floats);
* filename discovery and sorting (`Spherical_3D.__init__`,
  `Rayleigh_Output.__init__`) over code-point lists;
* the eager aggregation loop of `Rayleigh_Output.__init__` and
  `Meridional_Slices.get_q`.

Filenames are modelled as lists of Unicode code points (`List Nat`),
which is how Python compares and sorts strings.  8-byte float payloads
are carried as values of an abstract type; the decoders never inspect
them, so no IEEE-754 arithmetic is modelled.
-/

/-- Error taxonomy of the decoding layer (spec section 7).  Python raises
`IOError`, `AssertionError`, `ValueError`, `AttributeError` and `KeyError`
at the corresponding places; the embedding gives each failure site the
name used by the spec. -/
inductive Err where
  | outOfBounds
  | unrecognizedEndianness
  | unsupportedVersion
  | malformedFilename
  | unknownQuantity
  | dimensionMismatch
  | typeMismatch
deriving DecidableEq, Repr

/-- Byte order of a file, as returned by `BaseFile.get_endian`
(`"<"` = little, `">"` = big). -/
inductive Endian where
  | little
  | big
deriving DecidableEq, Repr

/-- Reinterpret a 32-bit unsigned value as a signed one
(numpy dtype `i4`). -/
def toSigned32 (n : Nat) : Int :=
  if n < 2 ^ 31 then (n : Int) else (n : Int) - 2 ^ 32

/-- `np.frombuffer(buf, dtype=e+"i4")` on four bytes: assemble the 32-bit
word under byte order `e` and reinterpret as signed. -/
def i4ofBytes (e : Endian) (b0 b1 b2 b3 : Nat) : Int :=
  match e with
  | .little => toSigned32 (b0 + 2 ^ 8 * b1 + 2 ^ 16 * b2 + 2 ^ 24 * b3)
  | .big => toSigned32 (b3 + 2 ^ 8 * b2 + 2 ^ 16 * b1 + 2 ^ 24 * b0)

/-- `BaseFile.get_endian(fd, sig, 'i4')`: read one 4-byte word, try the
little-endian interpretation first, then the big-endian one; if neither
equals the signature, raise (`IOError = UnrecognizedEndianness`).
Returns the detected order and the unconsumed remainder of the stream. -/
def get_endian (sig : Int) : List Nat → Except Err (Endian × List Nat)
  | b0 :: b1 :: b2 :: b3 :: rest =>
    if i4ofBytes .little b0 b1 b2 b3 = sig then .ok (.little, rest)
    else if i4ofBytes .big b0 b1 b2 b3 = sig then .ok (.big, rest)
    else .error .unrecognizedEndianness
  | _ => .error .outOfBounds

/-- State of an open `BaseFile` after `__init__`: the detected byte order
and the bytes not yet consumed by the cursor. -/
structure ByteFile where
  endian : Endian
  bytes : List Nat
deriving DecidableEq, Repr

/-- `BaseFile.__init__` with `endian=None`: detect the byte order from
the 314 sentinel; the detected order is stored on the file object. -/
def BaseFile_init (bs : List Nat) : Except Err ByteFile :=
  (get_endian 314 bs).map fun er => ⟨er.1, er.2⟩

/-- One subsequent `get_value('i4')` typed read: decodes the next four
bytes using the byte order frozen at `__init__` time. -/
def ByteFile.readI4 : ByteFile → Except Err (Int × ByteFile)
  | ⟨e, b0 :: b1 :: b2 :: b3 :: rest⟩ => .ok (i4ofBytes e b0 b1 b2 b3, ⟨e, rest⟩)
  | _ => .error .outOfBounds

/-- The 314 sentinel is unambiguous: a 4-byte word whose big-endian
reading is 314 cannot also read 314 little-endian. -/
theorem sentinel_unambiguous (b0 b1 b2 b3 : Nat) (hb0 : b0 < 256) (hb1 : b1 < 256)
    (hb2 : b2 < 256) (hb3 : b3 < 256) (hbe : i4ofBytes .big b0 b1 b2 b3 = 314) :
    i4ofBytes .little b0 b1 b2 b3 ≠ 314 := by
  simp only [i4ofBytes, toSigned32] at *
  split at hbe <;> split <;> omega

/- ------------------------------------------------------------------ -/
/- C1: the two byte-source backends of `BaseFile.get_value`.           -/
/- ------------------------------------------------------------------ -/

/-- Column-major (Fortran, `order='F'`) flat offset of a multi-index:
the first index varies fastest. -/
def fortranIdx : List Nat → List Nat → Nat
  | s :: ss, i :: il => i + s * fortranIdx ss il
  | _, _ => 0

/-- Row-major (C) flat offset of a multi-index: the last index varies
fastest.  This is the layout produced by `out.shape = shape` on the
flat array returned by `np.fromfile`. -/
def cIdx (shape idx : List Nat) : Nat :=
  fortranIdx shape.reverse idx.reverse

/-- Result of `BaseFile.get_value`: a scalar when `np.product(shape) == 1`
(the source returns `out[0]`), otherwise an array exposing an element at
each multi-index. -/
inductive PyValue (α : Type) where
  | scalar (x : α)
  | array (shape : List Nat) (item : List Nat → α)

/-- Element access on a `get_value` result. -/
def pyItem [Inhabited α] : PyValue α → List Nat → α
  | .scalar x, _ => x
  | .array _ it, idx => it idx

/-- `BaseFile.get_value` on the memory-mapped backend (`self._memmap`
true): `np.ndarray(shape, dtype, buffer=self.fh, offset=tell(), order='F')`
followed by a seek past `itemsize * size` bytes.  The stream is modelled
at element granularity: the call consumes `shape.prod` elements and lays
them out in column-major order. -/
def BaseFile_get_value_memmap [Inhabited α] (shape : List Nat) (s : List α) :
    PyValue α × List α :=
  let size := shape.prod
  let flat := s.take size
  (if size = 1 then .scalar (flat.getD 0 default)
   else .array shape fun idx => flat.getD (fortranIdx shape idx) default,
   s.drop size)

/-- `BaseFile.get_value` on the sequential-stream backend (`self._memmap`
false): `out = np.fromfile(self.fh, dtype, count=size); out.shape = shape`.
The shape assignment reshapes the flat read in row-major (C) order. -/
def BaseFile_get_value_stream [Inhabited α] (shape : List Nat) (s : List α) :
    PyValue α × List α :=
  let size := shape.prod
  let flat := s.take size
  (if size = 1 then .scalar (flat.getD 0 default)
   else .array shape fun idx => flat.getD (cIdx shape idx) default,
   s.drop size)

/- ------------------------------------------------------------------ -/
/- Claim theorems for C1 and C2.                                       -/
/- ------------------------------------------------------------------ -/

/-- **C2.** Endianness detection consumes exactly the sentinel's four
bytes once and returns little-endian when the little-endian reading of
those bytes is 314, big-endian when the big-endian reading is 314, and
fails with `UnrecognizedEndianness` when neither reading is 314; the
detected order is stored by `__init__` and used (unchanged) by every
subsequent typed read from the file's cursor. -/
theorem get_endian_spec (b0 b1 b2 b3 : Nat) (rest : List Nat)
    (hb0 : b0 < 256) (hb1 : b1 < 256) (hb2 : b2 < 256) (hb3 : b3 < 256) :
    (i4ofBytes .little b0 b1 b2 b3 = 314 →
      get_endian 314 (b0 :: b1 :: b2 :: b3 :: rest) = .ok (.little, rest)) ∧
    (i4ofBytes .big b0 b1 b2 b3 = 314 →
      get_endian 314 (b0 :: b1 :: b2 :: b3 :: rest) = .ok (.big, rest)) ∧
    (i4ofBytes .little b0 b1 b2 b3 ≠ 314 → i4ofBytes .big b0 b1 b2 b3 ≠ 314 →
      get_endian 314 (b0 :: b1 :: b2 :: b3 :: rest) = .error .unrecognizedEndianness) ∧
    (∀ f, BaseFile_init (b0 :: b1 :: b2 :: b3 :: rest) = .ok f →
      f.bytes = rest ∧
      get_endian 314 (b0 :: b1 :: b2 :: b3 :: rest) = .ok (f.endian, rest) ∧
      ∀ c0 c1 c2 c3 r, f.bytes = c0 :: c1 :: c2 :: c3 :: r →
        f.readI4 = .ok (i4ofBytes f.endian c0 c1 c2 c3, ⟨f.endian, r⟩)) := by
  refine ⟨fun hle => ?_, fun hbe => ?_, fun hle hbe => ?_, fun f hf => ?_⟩
  · simp [get_endian, hle]
  · have hle := sentinel_unambiguous b0 b1 b2 b3 hb0 hb1 hb2 hb3 hbe
    simp [get_endian, hle, hbe]
  · simp [get_endian, hle, hbe]
  · simp only [BaseFile_init] at hf
    rcases hge : get_endian 314 (b0 :: b1 :: b2 :: b3 :: rest) with e | p
    · rw [hge] at hf; cases hf
    · obtain ⟨e2, r2⟩ := p
      rw [hge] at hf
      simp only [Except.map, Except.ok.injEq] at hf
      subst hf
      have hrest : r2 = rest := by
        simp only [get_endian] at hge
        split at hge
        · simp only [Except.ok.injEq, Prod.mk.injEq] at hge
          exact hge.2.symm
        · split at hge
          · simp only [Except.ok.injEq, Prod.mk.injEq] at hge
            exact hge.2.symm
          · cases hge
      subst hrest
      refine ⟨rfl, rfl, ?_⟩
      intro c0 c1 c2 c3 r hb
      simp only at hb
      subst hb
      simp [ByteFile.readI4]

/-- Witness for **C2**: the little-endian encoding of 314 (bytes
`[58, 1, 0, 0]`) is detected as little-endian, leaving the remaining
bytes for later reads, and the next `i4` read decodes little-endian. -/
theorem get_endian_spec_witness :
    get_endian 314 [58, 1, 0, 0, 7, 0, 0, 0] = .ok (.little, [7, 0, 0, 0]) ∧
    BaseFile_init [58, 1, 0, 0, 7, 0, 0, 0] = .ok ⟨.little, [7, 0, 0, 0]⟩ ∧
    ByteFile.readI4 ⟨.little, [7, 0, 0, 0]⟩ = .ok (7, ⟨.little, []⟩) := by
  have h := get_endian_spec 58 1 0 0 [7, 0, 0, 0]
    (by decide) (by decide) (by decide) (by decide)
  have hle : i4ofBytes .little 58 1 0 0 = 314 := by decide
  have h1 := h.1 hle
  have hinit : BaseFile_init [58, 1, 0, 0, 7, 0, 0, 0] = .ok ⟨.little, [7, 0, 0, 0]⟩ := by
    simp [BaseFile_init, h1, Except.map]
  have h4 := (h.2.2.2 ⟨.little, [7, 0, 0, 0]⟩ hinit).2.2 7 0 0 0 [] rfl
  have h7 : i4ofBytes Endian.little 7 0 0 0 = 7 := by decide
  exact ⟨h1, hinit, by rw [h4, h7]⟩

/-- **C1** (code bug).  The two backends of `BaseFile.get_value` do not
agree on multi-dimensional shapes: on the flat elements
`[10, 20, 30, 40]` with shape `[2, 2]`, the memory-mapped backend
(`order='F'`) puts element 30 at multi-index `(0, 1)` — column-major, as
the spec states — while the sequential-stream backend (`np.fromfile`
followed by a C-order `out.shape = shape` assignment) puts 20 there.
Both backends consume the same four elements from the cursor. -/
theorem get_value_backend_divergence :
    pyItem (BaseFile_get_value_memmap [2, 2] ([10, 20, 30, 40] : List Int)).1 [0, 1] = 30 ∧
    pyItem (BaseFile_get_value_stream [2, 2] ([10, 20, 30, 40] : List Int)).1 [0, 1] = 20 ∧
    pyItem (BaseFile_get_value_memmap [2, 2] ([10, 20, 30, 40] : List Int)).1 [0, 1]
      = [10, 20, 30, 40].getD (fortranIdx [2, 2] [0, 1]) 0 ∧
    pyItem (BaseFile_get_value_memmap [2, 2] ([10, 20, 30, 40] : List Int)).1 [0, 1]
      ≠ pyItem (BaseFile_get_value_stream [2, 2] ([10, 20, 30, 40] : List Int)).1 [0, 1] ∧
    (BaseFile_get_value_memmap [2, 2] ([10, 20, 30, 40] : List Int)).2 = [] ∧
    (BaseFile_get_value_stream [2, 2] ([10, 20, 30, 40] : List Int)).2 = [] := by
  refine ⟨rfl, rfl, rfl, by decide, rfl, rfl⟩

/- ------------------------------------------------------------------ -/
/- Typed-entry cursor: the element-granularity view of a file.         -/
/- ------------------------------------------------------------------ -/

/-- One element of a binary file at typed-read granularity: a 4-byte
signed integer (`'i4'`) or an 8-byte float (`'f8'`).  Float payloads are
opaque values of `α`; the decoders move them around but never compute
with them. -/
inductive Entry (α : Type) where
  | i4 (v : Int)
  | f8 (x : α)
deriving DecidableEq, Repr

/-- A file cursor: the list of not-yet-consumed typed elements. -/
abbrev Cur (α : Type) := List (Entry α)

/-- `get_value('i4')`: consume one 4-byte integer. -/
def getI4 {α : Type} : Cur α → Except Err (Int × Cur α)
  | .i4 v :: rest => .ok (v, rest)
  | .f8 _ :: _ => .error .typeMismatch
  | [] => .error .outOfBounds

/-- `get_value('f8')`: consume one 8-byte float. -/
def getF8 {α : Type} : Cur α → Except Err (α × Cur α)
  | .f8 x :: rest => .ok (x, rest)
  | .i4 _ :: _ => .error .typeMismatch
  | [] => .error .outOfBounds

/-- `get_value('i4', shape=[n])`: consume `n` 4-byte integers. -/
def getI4s {α : Type} : Nat → Cur α → Except Err (List Int × Cur α)
  | 0, s => .ok ([], s)
  | n + 1, s => do
    let (v, s) ← getI4 s
    let (vs, s) ← getI4s n s
    .ok (v :: vs, s)

/-- `get_value('f8', shape=[n])` (or any f8 block of `n` elements in a
declared multi-dimensional shape): consume `n` 8-byte floats. -/
def getF8s {α : Type} : Nat → Cur α → Except Err (List α × Cur α)
  | 0, s => .ok ([], s)
  | n + 1, s => do
    let (x, s) ← getF8 s
    let (xs, s) ← getF8s n s
    .ok (x :: xs, s)

@[simp] theorem exc_bind_ok {α β : Type} (a : α) (f : α → Except Err β) :
    (Except.ok a : Except Err α) >>= f = f a := rfl

@[simp] theorem exc_bind_err {α β : Type} (e : Err) (f : α → Except Err β) :
    (Except.error e : Except Err α) >>= f = .error e := rfl

@[simp] theorem exc_map_ok {α β : Type} (g : α → β) (a : α) :
    (Except.ok a : Except Err α).map g = .ok (g a) := rfl

@[simp] theorem exc_map_err {α β : Type} (g : α → β) (e : Err) :
    (Except.error e : Except Err α).map g = .error e := rfl

@[simp] theorem getI4_cons {α : Type} (v : Int) (s : Cur α) :
    getI4 (.i4 v :: s) = .ok (v, s) := rfl

@[simp] theorem getF8_cons {α : Type} (x : α) (s : Cur α) :
    getF8 (.f8 x :: s) = .ok (x, s) := rfl

/-- Reading back a block of `i4` entries succeeds and consumes exactly
the block. -/
theorem getI4s_append {α : Type} (vs : List Int) (rest : Cur α) :
    getI4s vs.length ((vs.map .i4 : Cur α) ++ rest) = .ok (vs, rest) := by
  induction vs with
  | nil => rfl
  | cons v vs ih => simp [getI4s, ih]

/-- Reading back a block of `f8` entries succeeds and consumes exactly
the block. -/
theorem getF8s_append {α : Type} (xs : List α) (rest : Cur α) :
    getF8s xs.length ((xs.map .f8 : Cur α) ++ rest) = .ok (xs, rest) := by
  induction xs with
  | nil => rfl
  | cons x xs ih => simp [getF8s, ih]

/-- A successful `getF8s n` returns a list of length `n`. -/
theorem getF8s_length {α : Type} {n : Nat} {s rest : Cur α} {xs : List α}
    (h : getF8s n s = .ok (xs, rest)) : xs.length = n := by
  induction n generalizing s xs rest with
  | zero =>
    simp only [getF8s, Except.ok.injEq, Prod.mk.injEq] at h
    rw [← h.1]
    rfl
  | succ n ih =>
    simp only [getF8s] at h
    rcases hx : getF8 s with e | ⟨x, s1⟩ <;> rw [hx] at h
    · cases h
    · simp only [exc_bind_ok] at h
      rcases hxs : getF8s n s1 with e | ⟨xs1, s2⟩ <;> rw [hxs] at h
      · cases h
      · simp only [exc_bind_ok, Except.ok.injEq, Prod.mk.injEq] at h
        rw [← h.1]
        simp [ih hxs]

/-- A successful `getI4s n` returns a list of length `n`. -/
theorem getI4s_length {α : Type} {n : Nat} {s rest : Cur α} {vs : List Int}
    (h : getI4s n s = .ok (vs, rest)) : vs.length = n := by
  induction n generalizing s vs rest with
  | zero =>
    simp only [getI4s, Except.ok.injEq, Prod.mk.injEq] at h
    rw [← h.1]
    rfl
  | succ n ih =>
    simp only [getI4s] at h
    rcases hx : getI4 s with e | ⟨v, s1⟩ <;> rw [hx] at h
    · cases h
    · simp only [exc_bind_ok] at h
      rcases hvs : getI4s n s1 with e | ⟨vs1, s2⟩ <;> rw [hvs] at h
      · cases h
      · simp only [exc_bind_ok, Except.ok.injEq, Prod.mk.injEq] at h
        rw [← h.1]
        simp [ih hvs]

/- ------------------------------------------------------------------ -/
/- C3, C4: `Shell_Avgs_file` and its versioned record layouts.         -/
/- ------------------------------------------------------------------ -/

/-- One decoded shell-average record: the flattened `val` block followed
by its `time` and `iters` stamps, in on-disk order. -/
structure ShellAvgsRec (α : Type) where
  val : List α
  time : α
  iters : Int
deriving DecidableEq, Repr

/-- The per-record `val` shape chosen by `Shell_Avgs_file.__init__`:
`(nr, nq)` for version 1, `(nr, 4, nq)` for other versions below 6, and
— marked `# fixme` in the source — the same `(nr, 4, nq)` again for
versions 6 and above. -/
def Shell_Avgs_val_shape (version : Int) (nr nq : Nat) : List Nat :=
  if version = 1 then [nr, nq]
  else if version < 6 then [nr, 4, nq]
  else [nr, 4, nq]

/-- Decoded `Shell_Avgs_file`: header counts, quantity codes, radii, and
the per-record arrays (`val` rows are flattened record bodies whose
logical shape is `valShape`). -/
structure Shell_Avgs_file (α : Type) where
  version : Int
  nrec : Int
  nr : Int
  nq : Int
  qv : List Int
  radius : List α
  valShape : List Nat
  val : List (List α)
  time : List α
  iters : List Int
deriving DecidableEq, Repr

/-- The `nrec` repetitions of the record sub-layout
`{val f8[m], time f8, iters i4}` (the structured-dtype block read of
`Shell_Avgs_file.__init__`). -/
def Shell_Avgs_records {α : Type} : Nat → Nat → Cur α →
    Except Err (List (ShellAvgsRec α) × Cur α)
  | 0, _, s => .ok ([], s)
  | n + 1, m, s => do
    let (v, s) ← getF8s m s
    let (t, s) ← getF8 s
    let (it, s) ← getI4 s
    let (rs, s) ← Shell_Avgs_records n m s
    .ok (⟨v, t, it⟩ :: rs, s)

/-- The part of `Shell_Avgs_file.__init__` after the (version-dependent)
header: `qv`, `radius`, then the `nrec` records under the
version-selected dtype. -/
def Shell_Avgs_fields {α : Type} (version nrec nr nq : Int) (s : Cur α) :
    Except Err (Shell_Avgs_file α × Cur α) := do
  let (qv, s) ← getI4s nq.toNat s
  let (radius, s) ← getF8s nr.toNat s
  let shape := Shell_Avgs_val_shape version nr.toNat nq.toNat
  let (recs, s) ← Shell_Avgs_records nrec.toNat shape.prod s
  .ok (⟨version, nrec, nr, nq, qv, radius, shape,
        recs.map ShellAvgsRec.val, recs.map ShellAvgsRec.time,
        recs.map ShellAvgsRec.iters⟩, s)

/-- `Shell_Avgs_file.__init__`: version, nrec, nr, nq; for version ≥ 6
one extra `npcol` int is read and discarded; then the common body. -/
def Shell_Avgs_read {α : Type} (s : Cur α) :
    Except Err (Shell_Avgs_file α × Cur α) := do
  let (version, s) ← getI4 s
  let (nrec, s) ← getI4 s
  let (nr, s) ← getI4 s
  let (nq, s) ← getI4 s
  let s ← if 6 ≤ version then do
      let (_npcol, s) ← getI4 s
      pure s
    else pure s
  Shell_Avgs_fields version nrec nr nq s

/-- Every record produced by `Shell_Avgs_records n m` has a `val` block
of exactly `m` elements, and there are exactly `n` records. -/
theorem Shell_Avgs_records_ok {α : Type} {n m : Nat} {s rest : Cur α}
    {rs : List (ShellAvgsRec α)} (h : Shell_Avgs_records n m s = .ok (rs, rest)) :
    rs.length = n ∧ ∀ r ∈ rs, r.val.length = m := by
  induction n generalizing s rs rest with
  | zero =>
    simp only [Shell_Avgs_records, Except.ok.injEq, Prod.mk.injEq] at h
    rw [← h.1]
    exact ⟨rfl, by intro r hr; cases hr⟩
  | succ n ih =>
    simp only [Shell_Avgs_records] at h
    rcases hv : getF8s m s with e | ⟨v, s1⟩ <;> rw [hv] at h
    · cases h
    · simp only [exc_bind_ok] at h
      rcases ht : getF8 s1 with e | ⟨t, s2⟩ <;> rw [ht] at h
      · cases h
      · simp only [exc_bind_ok] at h
        rcases hit : getI4 s2 with e | ⟨it, s3⟩ <;> rw [hit] at h
        · cases h
        · simp only [exc_bind_ok] at h
          rcases hrs : Shell_Avgs_records n m s3 with e | ⟨rs1, s4⟩ <;> rw [hrs] at h
          · cases h
          · simp only [exc_bind_ok, Except.ok.injEq, Prod.mk.injEq] at h
            rw [← h.1]
            obtain ⟨ihlen, ihval⟩ := ih hrs
            refine ⟨by simp [ihlen], ?_⟩
            intro r hr
            rcases List.mem_cons.mp hr with hr | hr
            · rw [hr]; exact getF8s_length hv
            · exact ihval r hr

/-- A successful `Shell_Avgs_fields` records the supplied header values
and the version-selected shape, and its record rows all have the size of
that shape. -/
theorem Shell_Avgs_fields_ok {α : Type} {version nrec nr nq : Int} {s rest : Cur α}
    {f : Shell_Avgs_file α} (h : Shell_Avgs_fields version nrec nr nq s = .ok (f, rest)) :
    f.version = version ∧ f.nrec = nrec ∧ f.nr = nr ∧ f.nq = nq ∧
    f.valShape = Shell_Avgs_val_shape version nr.toNat nq.toNat ∧
    ∀ v ∈ f.val, v.length = f.valShape.prod := by
  simp only [Shell_Avgs_fields] at h
  rcases hqv : getI4s nq.toNat s with e | ⟨qv, s1⟩ <;> rw [hqv] at h
  · cases h
  · simp only [exc_bind_ok] at h
    rcases hrad : getF8s nr.toNat s1 with e | ⟨radius, s2⟩ <;> rw [hrad] at h
    · cases h
    · simp only [exc_bind_ok] at h
      rcases hrecs : Shell_Avgs_records nrec.toNat
          (Shell_Avgs_val_shape version nr.toNat nq.toNat).prod s2 with e | ⟨recs, s3⟩ <;>
        rw [hrecs] at h
      · cases h
      · simp only [exc_bind_ok, Except.ok.injEq, Prod.mk.injEq] at h
        rw [← h.1]
        refine ⟨rfl, rfl, rfl, rfl, rfl, ?_⟩
        intro v hv
        simp only [List.mem_map] at hv
        obtain ⟨r, hr, hrv⟩ := hv
        rw [← hrv]
        exact (Shell_Avgs_records_ok hrecs).2 r hr

/-- Two versions selecting the same record shape decode identically
except for the stored version number. -/
theorem Shell_Avgs_fields_congr {α : Type} (v w nrec nr nq : Int) (s : Cur α)
    (hshape : Shell_Avgs_val_shape v nr.toNat nq.toNat
      = Shell_Avgs_val_shape w nr.toNat nq.toNat) :
    Shell_Avgs_fields v nrec nr nq s
      = (Shell_Avgs_fields w nrec nr nq s).map
          (fun fr => ({ fr.1 with version := v }, fr.2)) := by
  simp only [Shell_Avgs_fields]
  rcases hqv : getI4s nq.toNat s with e | ⟨qv, s1⟩
  · rfl
  · simp only [exc_bind_ok]
    rcases hrad : getF8s nr.toNat s1 with e | ⟨radius, s2⟩
    · rfl
    · simp only [exc_bind_ok, hshape]
      rcases hrecs : Shell_Avgs_records nrec.toNat
          (Shell_Avgs_val_shape w nr.toNat nq.toNat).prod s2 with e | ⟨recs, s3⟩
      · rfl
      · rfl

@[simp] theorem exc_pure {α : Type} (a : α) : (pure a : Except Err α) = .ok a := rfl

/-- A successful `Shell_Avgs_read` produces the version-selected record
shape, and every decoded record body has exactly that many elements. -/
theorem Shell_Avgs_read_ok {α : Type} {s rest : Cur α} {f : Shell_Avgs_file α}
    (h : Shell_Avgs_read s = .ok (f, rest)) :
    f.valShape = Shell_Avgs_val_shape f.version f.nr.toNat f.nq.toNat ∧
    ∀ v ∈ f.val, v.length = f.valShape.prod := by
  simp only [Shell_Avgs_read] at h
  rcases h1 : getI4 s with e | ⟨version, s1⟩ <;> rw [h1] at h
  · cases h
  · simp only [exc_bind_ok] at h
    rcases h2 : getI4 s1 with e | ⟨nrec, s2⟩ <;> rw [h2] at h
    · cases h
    · simp only [exc_bind_ok] at h
      rcases h3 : getI4 s2 with e | ⟨nr, s3⟩ <;> rw [h3] at h
      · cases h
      · simp only [exc_bind_ok] at h
        rcases h4 : getI4 s3 with e | ⟨nq, s4⟩ <;> rw [h4] at h
        · cases h
        · simp only [exc_bind_ok] at h
          have hfin : ∀ s5 : Cur α, Shell_Avgs_fields version nrec nr nq s5 = .ok (f, rest) →
              f.valShape = Shell_Avgs_val_shape f.version f.nr.toNat f.nq.toNat ∧
              ∀ v ∈ f.val, v.length = f.valShape.prod := by
            intro s5 h5
            obtain ⟨hv, -, hnr, hnq, hs, hval⟩ := Shell_Avgs_fields_ok h5
            rw [hs, hv, hnr, hnq]
            refine ⟨rfl, ?_⟩
            rw [← hs]
            exact hval
          by_cases h6 : (6 : Int) ≤ version
          · rw [if_pos h6] at h
            rcases h5 : getI4 s4 with e | ⟨npcol, s5⟩ <;> rw [h5] at h
            · cases h
            · simp only [exc_bind_ok, exc_pure] at h
              exact hfin s5 h
          · rw [if_neg h6] at h
            simp only [exc_pure, exc_bind_ok] at h
            exact hfin s4 h

/-- **C3.** Shell-average decoding: a decoded file has per-record `val`
shape `[nr, nq]` for version 1 and `[nr, 4, nq]` for versions 2–5 and
for versions ≥ 6, with every record body of exactly that size; and for
any version ≥ 6 the decoder consumes exactly one extra `i4` (`npcol`)
after `nq` and before the quantity-code vector, ignores its value, and
decodes the remaining stream exactly as any version in 2–5 would (only
the stored version number differs). -/
theorem shell_avgs_version_layouts {α : Type} :
    (∀ (s rest : Cur α) (f : Shell_Avgs_file α), Shell_Avgs_read s = .ok (f, rest) →
      (f.version = 1 → f.valShape = [f.nr.toNat, f.nq.toNat]) ∧
      (2 ≤ f.version → f.version ≤ 5 → f.valShape = [f.nr.toNat, 4, f.nq.toNat]) ∧
      (6 ≤ f.version → f.valShape = [f.nr.toNat, 4, f.nq.toNat]) ∧
      ∀ v ∈ f.val, v.length = f.valShape.prod) ∧
    (∀ (version nrec nr nq npcol v2 : Int) (r : Cur α), 6 ≤ version → 2 ≤ v2 → v2 ≤ 5 →
      Shell_Avgs_read (.i4 version :: .i4 nrec :: .i4 nr :: .i4 nq :: .i4 npcol :: r)
        = (Shell_Avgs_read (.i4 v2 :: .i4 nrec :: .i4 nr :: .i4 nq :: r)).map
            (fun fr => ({ fr.1 with version := version }, fr.2))) := by
  constructor
  · intro s rest f h
    obtain ⟨hs, hval⟩ := Shell_Avgs_read_ok h
    refine ⟨?_, ?_, ?_, hval⟩
    · intro h1
      rw [hs, h1]
      simp [Shell_Avgs_val_shape]
    · intro h2 h5
      rw [hs]
      simp only [Shell_Avgs_val_shape]
      rw [if_neg (by omega), if_pos (by omega)]
    · intro h6
      rw [hs]
      simp only [Shell_Avgs_val_shape]
      rw [if_neg (by omega), if_neg (by omega)]
  · intro version nrec nr nq npcol v2 r h6 h2 h5
    simp only [Shell_Avgs_read, getI4_cons, exc_bind_ok]
    rw [if_pos h6, if_neg (by omega : ¬ (6 : Int) ≤ v2)]
    simp only [getI4_cons, exc_bind_ok, exc_pure]
    exact Shell_Avgs_fields_congr version v2 nrec nr nq r (by
      simp only [Shell_Avgs_val_shape]
      rw [if_neg (by omega : ¬ version = 1), if_neg (by omega : ¬ version < 6),
        if_neg (by omega : ¬ v2 = 1), if_pos (by omega : v2 < 6)])

/-- Concrete version-1 shell-average stream used by the C3 witness:
nrec = 1, nr = 2, nq = 1, qv = [9], radius = [10, 20], one record of
val = [1, 2] (shape (2, 1)), time = 3, iters = 4. -/
def c3s : Cur Int :=
  [.i4 1, .i4 1, .i4 2, .i4 1, .i4 9, .f8 10, .f8 20, .f8 1, .f8 2, .f8 3, .i4 4]

/-- The decoded form of `c3s`. -/
def c3f : Shell_Avgs_file Int :=
  ⟨1, 1, 2, 1, [9], [10, 20], [2, 1], [[1, 2]], [3], [4]⟩

/-- Tail (qv, radius, records) shared by the two streams of the C3
witness's npcol clause. -/
def c3tail : Cur Int :=
  [.i4 9, .f8 10, .f8 1, .f8 2, .f8 3, .f8 4, .f8 5, .i4 6]

/-- Witness for **C3**: the version-1 stream `c3s` decodes with `val`
shape `[2, 1]`, and a version-99 stream with an `npcol` entry decodes
exactly as the same stream with version 3 and no `npcol`. -/
theorem shell_avgs_version_layouts_witness :
    c3f.valShape = [2, 1] ∧
    Shell_Avgs_read (.i4 99 :: .i4 1 :: .i4 1 :: .i4 1 :: .i4 7 :: c3tail)
      = (Shell_Avgs_read (.i4 3 :: .i4 1 :: .i4 1 :: .i4 1 :: c3tail)).map
          (fun fr => ({ fr.1 with version := 99 }, fr.2)) := by
  have h1 := (shell_avgs_version_layouts (α := Int)).1 c3s [] c3f rfl
  have h2 := (shell_avgs_version_layouts (α := Int)).2 99 1 1 1 7 3 c3tail
    (by norm_num) (by norm_num) (by norm_num)
  exact ⟨h1.1 rfl, h2⟩

/-- Concrete version-99 shell-average stream: nrec = 1, nr = 1, nq = 1,
npcol = 7, qv = [401], radius = [5], one record. -/
def c4s : Cur Int :=
  [.i4 99, .i4 1, .i4 1, .i4 1, .i4 7, .i4 401, .f8 5, .f8 1, .f8 2, .f8 3, .f8 4,
   .f8 6, .i4 100]

/-- **C4** counterexample.  A shell-average file with version 99 — the
spec's own example of a version outside the known set — decodes
successfully with the version ≥ 6 fallback layout; `Shell_Avgs_file`
has no `UnsupportedVersion` failure path at all. -/
theorem shell_avgs_version99_decodes :
    Shell_Avgs_read c4s
      = .ok (⟨99, 1, 1, 1, [401], [5], [1, 4, 1], [[1, 2, 3, 4]], [6], [100]⟩, []) ∧
    Shell_Avgs_read c4s ≠ .error .unsupportedVersion := by
  have h : Shell_Avgs_read c4s
      = .ok (⟨99, 1, 1, 1, [401], [5], [1, 4, 1], [[1, 2, 3, 4]], [6], [100]⟩, []) := rfl
  refine ⟨h, ?_⟩
  rw [h]
  exact fun hc => Except.noConfusion hc

/-- On-disk encoding of a shell-average file with the given header
values and payload, including the extra `npcol` word exactly when the
version is ≥ 6. -/
def Shell_Avgs_stream {α : Type} (version nrec nr nq npcol : Int) (qv : List Int)
    (radius : List α) (recs : List (ShellAvgsRec α)) : Cur α :=
  .i4 version :: .i4 nrec :: .i4 nr :: .i4 nq ::
    ((if 6 ≤ version then [Entry.i4 npcol] else []) ++ (qv.map .i4 ++ (radius.map .f8 ++
      recs.flatMap fun r => r.val.map .f8 ++ [.f8 r.time, .i4 r.iters])))

/-- Reading back an encoded record block succeeds and consumes exactly
the block. -/
theorem Shell_Avgs_records_append {α : Type} (m : Nat) (recs : List (ShellAvgsRec α))
    (rest : Cur α) (hval : ∀ r ∈ recs, r.val.length = m) :
    Shell_Avgs_records recs.length m
        ((recs.flatMap fun r => r.val.map .f8 ++ [.f8 r.time, .i4 r.iters]) ++ rest)
      = .ok (recs, rest) := by
  induction recs with
  | nil => rfl
  | cons r rs ih =>
    have hr : r.val.length = m := hval r (by simp)
    simp only [List.flatMap_cons, List.append_assoc, List.length_cons, Shell_Avgs_records]
    rw [← hr, getF8s_append]
    simp only [exc_bind_ok, List.cons_append, getF8_cons, getI4_cons, List.nil_append, hr]
    rw [ih (fun x hx => hval x (by simp [hx]))]
    rfl

/-- **C4** (amended).  The shell-average decoder's version match is
total: no version value is rejected.  A well-formed stream decodes
successfully for *every* version integer — version 1 with shape
`[nr, nq]`, any other version below 6 with `[nr, 4, nq]`, and every
version ≥ 6 (recognized or not, e.g. 99) with the read-and-discarded
`npcol` word followed by the same `[nr, 4, nq]` layout — rather than
failing with `UnsupportedVersion`. -/
theorem shell_avgs_total_over_versions {α : Type} (version nrec nr nq npcol : Int)
    (qv : List Int) (radius : List α) (recs : List (ShellAvgsRec α))
    (hqv : qv.length = nq.toNat) (hrad : radius.length = nr.toNat)
    (hrecs : recs.length = nrec.toNat)
    (hval : ∀ r ∈ recs,
      r.val.length = (Shell_Avgs_val_shape version nr.toNat nq.toNat).prod) :
    Shell_Avgs_read (Shell_Avgs_stream version nrec nr nq npcol qv radius recs)
      = .ok (⟨version, nrec, nr, nq, qv, radius,
             Shell_Avgs_val_shape version nr.toNat nq.toNat,
             recs.map ShellAvgsRec.val, recs.map ShellAvgsRec.time,
             recs.map ShellAvgsRec.iters⟩, []) := by
  have hval2 : ∀ r ∈ recs,
      r.val.length = (Shell_Avgs_val_shape version radius.length qv.length).prod := by
    rw [hqv, hrad]
    exact hval
  have hbody : Shell_Avgs_fields version nrec nr nq (qv.map .i4 ++ (radius.map .f8 ++
      recs.flatMap fun r => r.val.map .f8 ++ [.f8 r.time, .i4 r.iters]))
      = .ok (⟨version, nrec, nr, nq, qv, radius,
             Shell_Avgs_val_shape version nr.toNat nq.toNat,
             recs.map ShellAvgsRec.val, recs.map ShellAvgsRec.time,
             recs.map ShellAvgsRec.iters⟩, []) := by
    simp only [Shell_Avgs_fields]
    rw [← hqv, ← hrad, getI4s_append]
    simp only [exc_bind_ok]
    rw [getF8s_append]
    simp only [exc_bind_ok]
    have hrec := Shell_Avgs_records_append
      ((Shell_Avgs_val_shape version radius.length qv.length).prod) recs ([] : Cur α) hval2
    rw [List.append_nil, hrecs] at hrec
    rw [hrec]
    simp only [exc_bind_ok]
  simp only [Shell_Avgs_read, Shell_Avgs_stream, getI4_cons, exc_bind_ok]
  by_cases h6 : (6 : Int) ≤ version
  · rw [if_pos h6, if_pos h6]
    simp only [List.cons_append, List.nil_append, getI4_cons, exc_bind_ok, exc_pure]
    exact hbody
  · rw [if_neg h6, if_neg h6]
    simp only [List.nil_append, exc_pure, exc_bind_ok]
    exact hbody

/-- Witness for the amended **C4**: the version-99 encoding decodes
successfully (applying the totality theorem at version 99). -/
theorem shell_avgs_total_over_versions_witness :
    Shell_Avgs_read (Shell_Avgs_stream (α := Int) 99 1 1 1 7 [401] [5] [⟨[1, 2, 3, 4], 6, 100⟩])
      = .ok (⟨99, 1, 1, 1, [401], [5], [1, 4, 1], [[1, 2, 3, 4]], [6], [100]⟩, []) := by
  have h := shell_avgs_total_over_versions (α := Int) 99 1 1 1 7 [401] [5]
    [⟨[1, 2, 3, 4], 6, 100⟩] rfl rfl rfl (by decide)
  simpa using h

/- ------------------------------------------------------------------ -/
/- C8: `Spherical_3D_grid`.                                            -/
/- ------------------------------------------------------------------ -/

/-- Decoded grid file: the three dimension counts, the radii and the
colatitudes. -/
structure Spherical_3D_grid (α : Type) where
  nr : Int
  ntheta : Int
  nphi : Int
  radius : List α
  thetas : List α
deriving DecidableEq, Repr

/-- `Spherical_3D_grid.__init__`: one `get_value('i4', shape=[3])` read
tuple-unpacked into `nr, ntheta, nphi` (modelled as three consecutive
`i4` reads, which consume the same elements), then the
`assert(nphi == 2 * ntheta)` check (`DimensionMismatch`), then
`radius[nr]` and `thetas[ntheta]` as `f8` blocks. -/
def Spherical_3D_grid_read {α : Type} (s : Cur α) :
    Except Err (Spherical_3D_grid α × Cur α) := do
  let (nr, s) ← getI4 s
  let (ntheta, s) ← getI4 s
  let (nphi, s) ← getI4 s
  if nphi = 2 * ntheta then do
    let (radius, s) ← getF8s nr.toNat s
    let (thetas, s) ← getF8s ntheta.toNat s
    .ok (⟨nr, ntheta, nphi, radius, thetas⟩, s)
  else .error .dimensionMismatch

/-- **C8.** Grid decoding reads `[nr, ntheta, nphi]` then `radius[nr]`
then `theta[ntheta]`; it fails eagerly with `DimensionMismatch` —
immediately after the three dimension reads, whatever bytes follow —
whenever `nphi ≠ 2·ntheta`, and on success the decoded grid satisfies
`nphi = 2·ntheta` with `radius` of length `nr` and `thetas` of length
`ntheta`. -/
theorem grid_decode_spec {α : Type} :
    (∀ (s rest : Cur α) (g : Spherical_3D_grid α),
      Spherical_3D_grid_read s = .ok (g, rest) →
      g.nphi = 2 * g.ntheta ∧ g.radius.length = g.nr.toNat ∧
      g.thetas.length = g.ntheta.toNat) ∧
    (∀ (nr ntheta nphi : Int) (rest : Cur α), nphi ≠ 2 * ntheta →
      Spherical_3D_grid_read (.i4 nr :: .i4 ntheta :: .i4 nphi :: rest)
        = .error .dimensionMismatch) ∧
    (∀ (nr ntheta nphi : Int) (radius thetas : List α) (rest : Cur α),
      nphi = 2 * ntheta → radius.length = nr.toNat → thetas.length = ntheta.toNat →
      Spherical_3D_grid_read (.i4 nr :: .i4 ntheta :: .i4 nphi ::
          (radius.map .f8 ++ (thetas.map .f8 ++ rest)))
        = .ok (⟨nr, ntheta, nphi, radius, thetas⟩, rest)) := by
  refine ⟨?_, ?_, ?_⟩
  · intro s rest g h
    simp only [Spherical_3D_grid_read] at h
    rcases h1 : getI4 s with e | ⟨nr, s1⟩ <;> rw [h1] at h
    · cases h
    · simp only [exc_bind_ok] at h
      rcases h2 : getI4 s1 with e | ⟨ntheta, s2⟩ <;> rw [h2] at h
      · cases h
      · simp only [exc_bind_ok] at h
        rcases h3 : getI4 s2 with e | ⟨nphi, s3⟩ <;> rw [h3] at h
        · cases h
        · simp only [exc_bind_ok] at h
          by_cases heq : nphi = 2 * ntheta
          · rw [if_pos heq] at h
            rcases h4 : getF8s nr.toNat s3 with e | ⟨radius, s4⟩ <;> rw [h4] at h
            · cases h
            · simp only [exc_bind_ok] at h
              rcases h5 : getF8s ntheta.toNat s4 with e | ⟨thetas, s5⟩ <;> rw [h5] at h
              · cases h
              · simp only [exc_bind_ok, Except.ok.injEq, Prod.mk.injEq] at h
                rw [← h.1]
                exact ⟨heq, getF8s_length h4, getF8s_length h5⟩
          · rw [if_neg heq] at h
            cases h
  · intro nr ntheta nphi rest hne
    simp only [Spherical_3D_grid_read, getI4_cons, exc_bind_ok]
    rw [if_neg hne]
  · intro nr ntheta nphi radius thetas rest heq hrad hth
    simp only [Spherical_3D_grid_read, getI4_cons, exc_bind_ok]
    rw [if_pos heq, ← hrad, getF8s_append]
    simp only [exc_bind_ok]
    rw [← hth, getF8s_append]
    simp only [exc_bind_ok]

/-- Witness for **C8**: a grid stream with `nphi = 4 = 2·ntheta` decodes
successfully with the declared lengths, and the same header with
`nphi = 5` fails with `DimensionMismatch` even though the rest of the
stream is unchanged. -/
theorem grid_decode_spec_witness :
    Spherical_3D_grid_read
        (.i4 1 :: .i4 2 :: .i4 4 :: ([Entry.f8 (7 : Int)] ++ ([.f8 8, .f8 9] ++ [])))
      = .ok (⟨1, 2, 4, [7], [8, 9]⟩, []) ∧
    Spherical_3D_grid_read
        ((.i4 1 :: .i4 2 :: .i4 5 :: ([Entry.f8 (7 : Int)] ++ ([.f8 8, .f8 9] ++ []))))
      = .error .dimensionMismatch := by
  constructor
  · have h := (grid_decode_spec (α := Int)).2.2 1 2 4 [7] [8, 9] []
      (by norm_num) rfl rfl
    simpa using h
  · exact (grid_decode_spec (α := Int)).2.1 1 2 5 _ (by norm_num)

/- ------------------------------------------------------------------ -/
/- C7: `PDE_Coefficients` and its fixed column aliases.                -/
/- ------------------------------------------------------------------ -/

/-- `PDE_Coefficients.nconst`. -/
def nconst : Nat := 10

/-- `PDE_Coefficients.nfunc`. -/
def nfunc : Nat := 14

/-- Decoded coefficient file (`equation_coefficients`). -/
structure PDE_Coefficients (α : Type) where
  version : Int
  cset : List Int
  fset : List Int
  constants : List α
  nr : Int
  radius : List α
  functions_flat : List α
deriving DecidableEq, Repr

/-- `PDE_Coefficients.__init__`: version, `cset[10]`, `fset[14]` (i4),
`constants[10]` (f8), `nr` (i4), `radius[nr]` (f8), then the function
table `functions` of shape `[nr, 14]` — `nr · 14` f8 elements. -/
def PDE_read {α : Type} (s : Cur α) : Except Err (PDE_Coefficients α × Cur α) := do
  let (version, s) ← getI4 s
  let (cset, s) ← getI4s nconst s
  let (fset, s) ← getI4s nfunc s
  let (constants, s) ← getF8s nconst s
  let (nr, s) ← getI4 s
  let (radius, s) ← getF8s nr.toNat s
  let (functions_flat, s) ← getF8s (nr.toNat * nfunc) s
  .ok (⟨version, cset, fset, constants, nr, radius, functions_flat⟩, s)

/-- `self.functions[i, j]` (0-indexed): the `[nr, 14]` table under the
memory-mapped backend's column-major layout (`order='F'`), i.e. flat
offset `i + nr * j`. -/
def PDE_Coefficients.functions [Inhabited α] (c : PDE_Coefficients α) (i j : Nat) : α :=
  c.functions_flat.getD (i + c.nr.toNat * j) default

/-- `self.density = self.rho = self.functions[:, 1-1]`. -/
def PDE_Coefficients.density [Inhabited α] (c : PDE_Coefficients α) (i : Nat) : α :=
  c.functions i (1 - 1)

/-- `self.rho`, the second name bound to `density` by the source. -/
def PDE_Coefficients.rho [Inhabited α] (c : PDE_Coefficients α) (i : Nat) : α :=
  c.density i

/-- `self.temperature = self.T = self.functions[:, 4-1]`. -/
def PDE_Coefficients.temperature [Inhabited α] (c : PDE_Coefficients α) (i : Nat) : α :=
  c.functions i (4 - 1)

/-- `self.T`, the second name bound to `temperature` by the source. -/
def PDE_Coefficients.T [Inhabited α] (c : PDE_Coefficients α) (i : Nat) : α :=
  c.temperature i

/-- `self.heating = self.functions[:, 6-1] * self.constants[10-1] / self.rho / self.T`. -/
def PDE_Coefficients.heating [Inhabited α] [Mul α] [Div α]
    (c : PDE_Coefficients α) (i : Nat) : α :=
  c.functions i (6 - 1) * c.constants.getD (10 - 1) default / c.rho i / c.T i

/-- **C7.** In a decoded coefficient file, `density` is column 1
(1-indexed) of the functions table, `temperature` is column 4, and
`heating` is column 6 times constant 10 divided elementwise by density
and temperature; the decode really delivers 10 constants and an
`nr × 14` table, so those column numbers index decoded data. -/
theorem pde_coefficients_aliases {α : Type} [Inhabited α] [Mul α] [Div α] :
    ∀ (s rest : Cur α) (c : PDE_Coefficients α), PDE_read s = .ok (c, rest) →
      c.constants.length = 10 ∧
      c.functions_flat.length = c.nr.toNat * 14 ∧
      (∀ i, c.density i = c.functions i (1 - 1)) ∧
      (∀ i, c.temperature i = c.functions i (4 - 1)) ∧
      (∀ i, c.heating i = c.functions i (6 - 1) * c.constants.getD (10 - 1) default
        / c.density i / c.temperature i) := by
  intro s rest c h
  simp only [PDE_read] at h
  rcases h1 : getI4 s with e | ⟨version, s1⟩ <;> rw [h1] at h
  · cases h
  · simp only [exc_bind_ok] at h
    rcases h2 : getI4s nconst s1 with e | ⟨cset, s2⟩ <;> rw [h2] at h
    · cases h
    · simp only [exc_bind_ok] at h
      rcases h3 : getI4s nfunc s2 with e | ⟨fset, s3⟩ <;> rw [h3] at h
      · cases h
      · simp only [exc_bind_ok] at h
        rcases h4 : getF8s nconst s3 with e | ⟨constants, s4⟩ <;> rw [h4] at h
        · cases h
        · simp only [exc_bind_ok] at h
          rcases h5 : getI4 s4 with e | ⟨nr, s5⟩ <;> rw [h5] at h
          · cases h
          · simp only [exc_bind_ok] at h
            rcases h6 : getF8s nr.toNat s5 with e | ⟨radius, s6⟩ <;> rw [h6] at h
            · cases h
            · simp only [exc_bind_ok] at h
              rcases h7 : getF8s (nr.toNat * nfunc) s6 with e | ⟨fl, s7⟩ <;> rw [h7] at h
              · cases h
              · simp only [exc_bind_ok, Except.ok.injEq, Prod.mk.injEq] at h
                rw [← h.1]
                refine ⟨getF8s_length h4, ?_, fun i => rfl, fun i => rfl, fun i => rfl⟩
                simpa [nfunc] using getF8s_length h7

/-- Concrete coefficient stream for the C7 witness: version 1, nr = 1;
constant 10 is 42, the single-radius function row is `101 .. 114`. -/
def c7s : Cur Int :=
  .i4 1 :: ((List.replicate 10 (Entry.i4 (0 : Int))) ++
    ((List.replicate 14 (Entry.i4 (0 : Int))) ++
      ([.f8 0, .f8 0, .f8 0, .f8 0, .f8 0, .f8 0, .f8 0, .f8 0, .f8 0, .f8 42] ++
        (.i4 1 :: (.f8 99 ::
          [.f8 101, .f8 102, .f8 103, .f8 104, .f8 105, .f8 106, .f8 107,
           .f8 108, .f8 109, .f8 110, .f8 111, .f8 112, .f8 113, .f8 114])))))

/-- The decoded form of `c7s`. -/
def c7c : PDE_Coefficients Int :=
  ⟨1, List.replicate 10 0, List.replicate 14 0,
   [0, 0, 0, 0, 0, 0, 0, 0, 0, 42], 1, [99],
   [101, 102, 103, 104, 105, 106, 107, 108, 109, 110, 111, 112, 113, 114]⟩

/-- Witness for **C7**: applying the alias theorem to the decoded `c7s`
pins the concrete columns — density row 0 is 101 (column 1),
temperature is 104 (column 4), and heating is `106 * 42 / 101 / 104`
computed from column 6 and constant 10. -/
theorem pde_coefficients_aliases_witness :
    c7c.density 0 = c7c.functions 0 0 ∧
    c7c.heating 0 = c7c.functions 0 5 * c7c.constants.getD 9 0 / c7c.density 0
      / c7c.temperature 0 ∧
    c7c.density 0 = 101 ∧ c7c.temperature 0 = 104 ∧
    c7c.heating 0 = 106 * 42 / 101 / 104 := by
  have h := pde_coefficients_aliases c7s [] c7c (by rfl)
  exact ⟨h.2.2.1 0, h.2.2.2.2 0, by decide, by decide, by decide⟩

/- ------------------------------------------------------------------ -/
/- C9, C10: `Meridional_Slices_file`, `Rayleigh_Output` aggregation.   -/
/- ------------------------------------------------------------------ -/

/-- A 4-D numpy array of logical shape `(nphi, ntheta, nr, nq)` with a
flat element list in column-major order (the memory-mapped backend's
layout). -/
structure Arr4 (α : Type) where
  nphi : Nat
  ntheta : Nat
  nr : Nat
  nq : Nat
  flat : List α
deriving DecidableEq, Repr

instance {α : Type} : Inhabited (Arr4 α) := ⟨⟨0, 0, 0, 0, []⟩⟩

/-- Element `(p, t, r, q)` of a 4-D column-major array. -/
def Arr4.item [Inhabited α] (a : Arr4 α) (p t r q : Nat) : α :=
  a.flat.getD (fortranIdx [a.nphi, a.ntheta, a.nr, a.nq] [p, t, r, q]) default

/-- `self.qvmap = {v: i for i, v in enumerate(self.qv)}`: quantity code
to column position on the quantity axis.  On duplicate codes the later
enumeration index wins, as in a Python dict comprehension; an absent
code is `none` (a Python `KeyError`). -/
def qvmapOf (qv : List Int) (q : Int) : Option Nat :=
  ((qv.enum.filter fun p => p.2 = q).map Prod.fst).getLast?

/-- Decoded `Meridional_Slices_file`.  The derived float fields
(`sintheta`, `phi`) are numeric post-processing of decoded data and are
not modelled; `phi_inds` keeps the `- 1` adjustment. -/
structure Meridional_Slices_file (α : Type) where
  version : Int
  nrec : Int
  nr : Int
  ntheta : Int
  nphi : Int
  nq : Int
  qv : List Int
  radius : List α
  costheta : List α
  phi_inds : List Int
  val : List (Arr4 α)
  time : List α
  iter : List Int
deriving DecidableEq, Repr

instance {α : Type} : Inhabited (Meridional_Slices_file α) :=
  ⟨⟨0, 0, 0, 0, 0, 0, [], [], [], [], [], [], []⟩⟩

/-- The per-record loop of `Meridional_Slices_file.__init__`: `nrec`
individual reads of `{val f8[nphi, ntheta, nr, nq], time f8, iter i4}`. -/
def Meridional_records {α : Type} : Nat → Nat → Nat → Nat → Nat → Cur α →
    Except Err (List (Arr4 α × α × Int) × Cur α)
  | 0, _, _, _, _, s => .ok ([], s)
  | n + 1, nphi, ntheta, nr, nq, s => do
    let (v, s) ← getF8s ([nphi, ntheta, nr, nq].prod) s
    let (t, s) ← getF8 s
    let (it, s) ← getI4 s
    let (rs, s) ← Meridional_records n nphi ntheta nr nq s
    .ok ((⟨nphi, ntheta, nr, nq, v⟩, t, it) :: rs, s)

/-- `Meridional_Slices_file.__init__`: version, nrec, nr, ntheta, nphi,
nq; `qv[nq]`; `radius[nr]`, `costheta[ntheta]`, `phi_inds[nphi] - 1`;
then `nrec` records read individually. -/
def Meridional_Slices_file_read {α : Type} (s : Cur α) :
    Except Err (Meridional_Slices_file α × Cur α) := do
  let (version, s) ← getI4 s
  let (nrec, s) ← getI4 s
  let (nr, s) ← getI4 s
  let (ntheta, s) ← getI4 s
  let (nphi, s) ← getI4 s
  let (nq, s) ← getI4 s
  let (qv, s) ← getI4s nq.toNat s
  let (radius, s) ← getF8s nr.toNat s
  let (costheta, s) ← getF8s ntheta.toNat s
  let (phi_inds, s) ← getI4s nphi.toNat s
  let (recs, s) ← Meridional_records nrec.toNat nphi.toNat ntheta.toNat nr.toNat nq.toNat s
  .ok (⟨version, nrec, nr, ntheta, nphi, nq, qv, radius, costheta,
        phi_inds.map (· - 1), recs.map (fun r => r.1), recs.map (fun r => r.2.1),
        recs.map (fun r => r.2.2)⟩, s)

/-- A successful record loop yields exactly `n` records. -/
theorem Meridional_records_length {α : Type} {n nphi ntheta nr nq : Nat} {s rest : Cur α}
    {rs : List (Arr4 α × α × Int)}
    (h : Meridional_records n nphi ntheta nr nq s = .ok (rs, rest)) : rs.length = n := by
  induction n generalizing s rs rest with
  | zero =>
    simp only [Meridional_records, Except.ok.injEq, Prod.mk.injEq] at h
    rw [← h.1]
    rfl
  | succ n ih =>
    simp only [Meridional_records] at h
    rcases h1 : getF8s ([nphi, ntheta, nr, nq].prod) s with e | ⟨v, s1⟩ <;> rw [h1] at h
    · cases h
    · simp only [exc_bind_ok] at h
      rcases h2 : getF8 s1 with e | ⟨t, s2⟩ <;> rw [h2] at h
      · cases h
      · simp only [exc_bind_ok] at h
        rcases h3 : getI4 s2 with e | ⟨it, s3⟩ <;> rw [h3] at h
        · cases h
        · simp only [exc_bind_ok] at h
          rcases h4 : Meridional_records n nphi ntheta nr nq s3 with e | ⟨rs1, s4⟩ <;>
            rw [h4] at h
          · cases h
          · simp only [exc_bind_ok, Except.ok.injEq, Prod.mk.injEq] at h
            rw [← h.1]
            simp [ih h4]

/-- A successfully decoded meridional file has `val`, `time` and `iter`
lists of equal length (one entry per record). -/
theorem Meridional_file_lengths {α : Type} {s rest : Cur α} {f : Meridional_Slices_file α}
    (h : Meridional_Slices_file_read s = .ok (f, rest)) :
    f.time.length = f.val.length ∧ f.iter.length = f.val.length := by
  simp only [Meridional_Slices_file_read] at h
  rcases h1 : getI4 s with e | ⟨version, s1⟩ <;> rw [h1] at h
  · cases h
  · simp only [exc_bind_ok] at h
    rcases h2 : getI4 s1 with e | ⟨nrec, s2⟩ <;> rw [h2] at h
    · cases h
    · simp only [exc_bind_ok] at h
      rcases h3 : getI4 s2 with e | ⟨nr, s3⟩ <;> rw [h3] at h
      · cases h
      · simp only [exc_bind_ok] at h
        rcases h4 : getI4 s3 with e | ⟨ntheta, s4⟩ <;> rw [h4] at h
        · cases h
        · simp only [exc_bind_ok] at h
          rcases h5 : getI4 s4 with e | ⟨nphi, s5⟩ <;> rw [h5] at h
          · cases h
          · simp only [exc_bind_ok] at h
            rcases h6 : getI4 s5 with e | ⟨nq, s6⟩ <;> rw [h6] at h
            · cases h
            · simp only [exc_bind_ok] at h
              rcases h7 : getI4s nq.toNat s6 with e | ⟨qv, s7⟩ <;> rw [h7] at h
              · cases h
              · simp only [exc_bind_ok] at h
                rcases h8 : getF8s nr.toNat s7 with e | ⟨radius, s8⟩ <;> rw [h8] at h
                · cases h
                · simp only [exc_bind_ok] at h
                  rcases h9 : getF8s ntheta.toNat s8 with e | ⟨costheta, s9⟩ <;> rw [h9] at h
                  · cases h
                  · simp only [exc_bind_ok] at h
                    rcases h10 : getI4s nphi.toNat s9 with e | ⟨phi_inds, s10⟩ <;>
                      rw [h10] at h
                    · cases h
                    · simp only [exc_bind_ok] at h
                      rcases h11 : Meridional_records nrec.toNat nphi.toNat ntheta.toNat
                          nr.toNat nq.toNat s10 with e | ⟨recs, s11⟩ <;> rw [h11] at h
                      · cases h
                      · simp only [exc_bind_ok, Except.ok.injEq, Prod.mk.injEq] at h
                        rw [← h.1]
                        simp

/-- The aggregate built by `Rayleigh_Output.__init__`: concatenated
record arrays, time and iteration stamps, the per-record `gridpointer`
back-reference, and the per-file `qvmap` attribute list (each `qvmap`
dict is determined by — and here represented as — the file's `qv`
vector). -/
structure Rayleigh_Output (α : Type) where
  val : List (Arr4 α)
  time : List α
  iter : List Int
  gridpointer : List Nat
  qvmaps : List (List Int)
deriving DecidableEq, Repr

/-- The empty aggregate (`self.val = []` etc. before the loop). -/
def Rayleigh_Output_empty {α : Type} : Rayleigh_Output α := ⟨[], [], [], [], []⟩

/-- One iteration of the `for i, f in enumerate(files)` loop of
`Rayleigh_Output.__init__`: append the decoded file's records, extend
`gridpointer` with `len(m.val)` copies of the running file index, and
append the file's `qvmap` attr. -/
def Rayleigh_Output_step {α : Type} (acc : Rayleigh_Output α × Nat)
    (m : Meridional_Slices_file α) : Rayleigh_Output α × Nat :=
  (⟨acc.1.val ++ m.val, acc.1.time ++ m.time, acc.1.iter ++ m.iter,
    acc.1.gridpointer ++ List.replicate m.val.length acc.2,
    acc.1.qvmaps ++ [m.qv]⟩, acc.2 + 1)

/-- `Rayleigh_Output.__init__` on the already-sorted, already-decoded
file list: the enumeration fold. -/
def Rayleigh_Output_init {α : Type} (files : List (Meridional_Slices_file α)) :
    Rayleigh_Output α :=
  (files.foldl Rayleigh_Output_step (Rayleigh_Output_empty, 0)).1

/-- `Rayleigh_Output.__len__` = `len(self.val)`. -/
def Rayleigh_Output_len {α : Type} (o : Rayleigh_Output α) : Nat := o.val.length

/-- The `gridpointer` sequence contributed by a file list when the
enumeration counter starts at `i`. -/
def gpFrom {α : Type} : Nat → List (Meridional_Slices_file α) → List Nat
  | _, [] => []
  | i, f :: fs => List.replicate f.val.length i ++ gpFrom (i + 1) fs

/-- Closed form of the `Rayleigh_Output.__init__` fold. -/
theorem Rayleigh_Output_foldl {α : Type} (files : List (Meridional_Slices_file α))
    (acc : Rayleigh_Output α) (i : Nat) :
    (files.foldl Rayleigh_Output_step (acc, i)).1
      = ⟨acc.val ++ files.flatMap (fun f => f.val),
         acc.time ++ files.flatMap (fun f => f.time),
         acc.iter ++ files.flatMap (fun f => f.iter),
         acc.gridpointer ++ gpFrom i files,
         acc.qvmaps ++ files.map (fun f => f.qv)⟩ := by
  induction files generalizing acc i with
  | nil => simp [gpFrom]
  | cons f fs ih =>
    simp only [List.foldl_cons, Rayleigh_Output_step, ih, List.flatMap_cons, gpFrom,
      List.map_cons, List.append_assoc]
    rfl

/-- Every entry of `gpFrom i files` lies in `[i, i + files.length)`. -/
theorem gpFrom_mem {α : Type} (files : List (Meridional_Slices_file α)) (i : Nat) :
    ∀ g ∈ gpFrom i files, i ≤ g ∧ g < i + files.length := by
  induction files generalizing i with
  | nil => intro g hg; cases hg
  | cons f fs ih =>
    intro g hg
    simp only [gpFrom, List.mem_append] at hg
    rcases hg with hg | hg
    · have := List.eq_of_mem_replicate hg
      subst this
      simp
    · have := ih (i + 1) g hg
      constructor <;> [omega; (simp only [List.length_cons]; omega)]

/-- `gpFrom` is non-decreasing. -/
theorem gpFrom_pairwise {α : Type} (files : List (Meridional_Slices_file α)) (i : Nat) :
    (gpFrom i files).Pairwise (· ≤ ·) := by
  induction files generalizing i with
  | nil => exact List.Pairwise.nil
  | cons f fs ih =>
    simp only [gpFrom]
    rw [List.pairwise_append]
    refine ⟨by simp [List.pairwise_replicate], ih (i + 1), ?_⟩
    intro a ha b hb
    have ha := List.eq_of_mem_replicate ha
    have hb := (gpFrom_mem fs (i + 1) b hb).1
    omega

/-- `gpFrom` has one entry per record. -/
theorem gpFrom_length {α : Type} (files : List (Meridional_Slices_file α)) (i : Nat) :
    (gpFrom i files).length = (files.flatMap (fun f => f.val)).length := by
  induction files generalizing i with
  | nil => rfl
  | cons f fs ih => simp [gpFrom, ih]

/-- `Meridional_Slices.get_q(i, qcode)`:
`igrid = self.gridpointer[i]` and
`self.val[i][:, :, :, self.qvmap[igrid][qcode]]` — the whole-array slice
fixing the quantity axis at the column chosen by file `igrid`'s
quantity map.  `none` models the `KeyError` on an unmapped code. -/
def Meridional_Slices_get_q {α : Type} [Inhabited α] (o : Rayleigh_Output α)
    (i : Nat) (qcode : Int) : Option (Nat → Nat → Nat → α) :=
  let igrid := o.gridpointer.getD i 0
  (qvmapOf (o.qvmaps.getD igrid []) qcode).map fun col =>
    fun p t r => (o.val.getD i default).item p t r col

/-- Indexing a mapped file list under the length bound. -/
theorem getD_map_qv {α : Type} (files : List (Meridional_Slices_file α)) (ig : Nat)
    (h : ig < files.length) :
    (files.map (fun f => f.qv)).getD ig [] = (files.getD ig default).qv := by
  rw [List.getD_eq_getElem _ _ (by simpa using h), List.getD_eq_getElem _ _ h]
  simp

/-- **C10.** After constructing `Rayleigh_Output` over `n` decoded
source files: `val` is the in-order concatenation of the files' record
lists; `time`, `iter` and `gridpointer` all have length `len(self)` =
`len(self.val)`; every `gridpointer` entry is a file index below `n`;
the `gridpointer` sequence is non-decreasing; the aggregated `qvmap`
attr list has one entry per file in order; and `get_q(i, qcode)` slices
the quantity axis of record `i` at the column given by the quantity map
of source file `gridpointer[i]`. -/
theorem rayleigh_output_aggregation {α : Type} [Inhabited α]
    (files : List (Meridional_Slices_file α))
    (hdec : ∀ f ∈ files, ∃ s rest : Cur α, Meridional_Slices_file_read s = .ok (f, rest)) :
    (Rayleigh_Output_init files).val = files.flatMap (fun f => f.val) ∧
    (Rayleigh_Output_init files).time.length
      = Rayleigh_Output_len (Rayleigh_Output_init files) ∧
    (Rayleigh_Output_init files).iter.length
      = Rayleigh_Output_len (Rayleigh_Output_init files) ∧
    (Rayleigh_Output_init files).gridpointer.length
      = Rayleigh_Output_len (Rayleigh_Output_init files) ∧
    (∀ g ∈ (Rayleigh_Output_init files).gridpointer, g < files.length) ∧
    (Rayleigh_Output_init files).gridpointer.Pairwise (· ≤ ·) ∧
    (Rayleigh_Output_init files).qvmaps = files.map (fun f => f.qv) ∧
    (∀ i qcode, i < Rayleigh_Output_len (Rayleigh_Output_init files) →
      Meridional_Slices_get_q (Rayleigh_Output_init files) i qcode
        = (qvmapOf (files.getD
              ((Rayleigh_Output_init files).gridpointer.getD i 0) default).qv qcode).map
            (fun col => fun p t r =>
              ((Rayleigh_Output_init files).val.getD i default).item p t r col)) := by
  have hlen : ∀ f ∈ files, f.time.length = f.val.length ∧ f.iter.length = f.val.length := by
    intro f hf
    obtain ⟨s, rest, hs⟩ := hdec f hf
    exact Meridional_file_lengths hs
  have hinit : Rayleigh_Output_init files
      = ⟨files.flatMap (fun f => f.val), files.flatMap (fun f => f.time),
         files.flatMap (fun f => f.iter), gpFrom 0 files,
         files.map (fun f => f.qv)⟩ := by
    unfold Rayleigh_Output_init
    rw [Rayleigh_Output_foldl]
    rfl
  rw [hinit]
  have htime : (files.flatMap (fun f => f.time)).length
      = (files.flatMap (fun f => f.val)).length := by
    simp only [List.length_flatMap]
    exact congrArg List.sum (List.map_congr_left fun f hf => (hlen f hf).1)
  have hiter : (files.flatMap (fun f => f.iter)).length
      = (files.flatMap (fun f => f.val)).length := by
    simp only [List.length_flatMap]
    exact congrArg List.sum (List.map_congr_left fun f hf => (hlen f hf).2)
  refine ⟨rfl, htime, hiter, gpFrom_length files 0, ?_, gpFrom_pairwise files 0, rfl, ?_⟩
  · intro g hg
    have := gpFrom_mem files 0 g hg
    omega
  · intro i qcode hi
    simp only [Rayleigh_Output_len] at hi
    have higrid : (gpFrom 0 files).getD i 0 < files.length := by
      have hmem : (gpFrom 0 files).getD i 0 ∈ gpFrom 0 files := by
        rw [List.getD_eq_getElem _ _ (by rw [gpFrom_length files 0]; exact hi)]
        exact List.getElem_mem _
      have := gpFrom_mem files 0 _ hmem
      omega
    simp only [Meridional_Slices_get_q]
    rw [getD_map_qv files _ higrid]

/-- Meridional stream for the C10 witness, file 0: all dimension counts
1, quantity code 3, one record (val 5, time 7, iter 11). -/
def m1s : Cur Int :=
  [.i4 1, .i4 1, .i4 1, .i4 1, .i4 1, .i4 1, .i4 3, .f8 2, .f8 0, .i4 1,
   .f8 5, .f8 7, .i4 11]

/-- The decoded form of `m1s`. -/
def m1f : Meridional_Slices_file Int :=
  ⟨1, 1, 1, 1, 1, 1, [3], [2], [0], [0], [⟨1, 1, 1, 1, [5]⟩], [7], [11]⟩

/-- Meridional stream for the C10 witness, file 1: quantity code 4, one
record (val 6, time 8, iter 12). -/
def m2s : Cur Int :=
  [.i4 1, .i4 1, .i4 1, .i4 1, .i4 1, .i4 1, .i4 4, .f8 2, .f8 0, .i4 1,
   .f8 6, .f8 8, .i4 12]

/-- The decoded form of `m2s`. -/
def m2f : Meridional_Slices_file Int :=
  ⟨1, 1, 1, 1, 1, 1, [4], [2], [0], [0], [⟨1, 1, 1, 1, [6]⟩], [8], [12]⟩

/-- Witness for **C10**: aggregating the two decoded files `m1f`, `m2f`
gives a non-decreasing in-range `gridpointer` and a `get_q` that reads
record 1 through file 1's quantity map. -/
theorem rayleigh_output_aggregation_witness :
    (Rayleigh_Output_init [m1f, m2f]).gridpointer.Pairwise (· ≤ ·) ∧
    (∀ g ∈ (Rayleigh_Output_init [m1f, m2f]).gridpointer, g < 2) ∧
    Meridional_Slices_get_q (Rayleigh_Output_init [m1f, m2f]) 1 4
      = (qvmapOf m2f.qv 4).map
          (fun col => fun p t r =>
            ((Rayleigh_Output_init [m1f, m2f]).val.getD 1 default).item p t r col) := by
  have h := rayleigh_output_aggregation [m1f, m2f] (by
    intro f hf
    simp only [List.mem_cons, List.not_mem_nil, or_false] at hf
    rcases hf with rfl | rfl
    · exact ⟨m1s, [], rfl⟩
    · exact ⟨m2s, [], rfl⟩)
  refine ⟨h.2.2.2.2.2.1, h.2.2.2.2.1, ?_⟩
  exact h.2.2.2.2.2.2.2 1 4 (by decide)

/- ------------------------------------------------------------------ -/
/- C9: unknown field names fail with `UnknownQuantity`.                -/
/- ------------------------------------------------------------------ -/

/-- `Rayleigh_TimeSeries(base, qcode)` — the handle bound to a resolved
quantity code by `Rayleigh_Output.__getattr__`. -/
structure Rayleigh_TimeSeries (α : Type) where
  base : Rayleigh_Output α
  qcode : Int

/-- `Rayleigh_Output.__getattr__(name)`: resolve `name` through the
external quantity index (`lut.parse_quantity`, passed as a parameter);
a name the index cannot resolve (code `None`) raises
(`AttributeError` = `UnknownQuantity`), a resolved one returns a
`Rayleigh_TimeSeries` bound to the code. -/
def Rayleigh_Output_getattr {α : Type} (parse_quantity : String → Option Int)
    (o : Rayleigh_Output α) (name : String) : Except Err (Rayleigh_TimeSeries α) :=
  match parse_quantity name with
  | none => .error .unknownQuantity
  | some qcode => .ok ⟨o, qcode⟩

/-- `Spherical_3D_Snapshot.__getattr__(name)`: resolve `name` and
delegate to `self.q(qcode)` (which opens that quantity's file for this
snapshot); an unresolvable name raises. -/
def Spherical_3D_Snapshot_getattr {β : Type} (parse_quantity : String → Option Int)
    (q : Int → β) (name : String) : Except Err β :=
  match parse_quantity name with
  | none => .error .unknownQuantity
  | some qcode => .ok (q qcode)

/-- **C9.** A field name the quantity index cannot resolve makes
attribute access fail with `UnknownQuantity` — on `Rayleigh_Output` and
on `Spherical_3D_Snapshot` alike — and never yields any value. -/
theorem unknown_quantity_fails {α β : Type} :
    ∀ (parse_quantity : String → Option Int) (o : Rayleigh_Output α) (q : Int → β)
      (name : String), parse_quantity name = none →
      Rayleigh_Output_getattr parse_quantity o name = .error .unknownQuantity ∧
      Spherical_3D_Snapshot_getattr parse_quantity q name = .error .unknownQuantity ∧
      (∀ ts, Rayleigh_Output_getattr parse_quantity o name ≠ .ok ts) ∧
      (∀ b, Spherical_3D_Snapshot_getattr parse_quantity q name ≠ .ok b) := by
  intro pq o q name h
  refine ⟨?_, ?_, ?_, ?_⟩ <;>
    simp [Rayleigh_Output_getattr, Spherical_3D_Snapshot_getattr, h]

/-- Witness for **C9**: a quantity index that resolves nothing rejects
the name "spam" with `UnknownQuantity` on both access paths. -/
theorem unknown_quantity_fails_witness :
    Rayleigh_Output_getattr (fun _ => none) (Rayleigh_Output_empty (α := Int)) "spam"
      = .error .unknownQuantity ∧
    Spherical_3D_Snapshot_getattr (fun _ => none) (fun qcode => qcode) "spam"
      = .error .unknownQuantity := by
  have h := unknown_quantity_fails (fun _ => none) (Rayleigh_Output_empty (α := Int))
    (fun qcode => qcode) "spam" rfl
  exact ⟨h.1, h.2.1⟩

/- ------------------------------------------------------------------ -/
/- C5, C6: filenames, zero-padding and ordering.                       -/
/- Filenames are lists of Unicode code points, Python's string model;  -/
/- comparison of Python strings is lexicographic on code points.       -/
/- ------------------------------------------------------------------ -/

/-- Code point of the decimal digit `d`. -/
def digitCode (d : Nat) : Nat := 48 + d

/-- Numeric value of a big-endian digit list. -/
def valBE : List Nat → Nat
  | [] => 0
  | d :: ds => d * 10 ^ ds.length + valBE ds

/-- Exactly `w` base-10 digits of `n`, big-endian — the zero-padded
digit block of `"{:0wd}".format(n)` when `n < 10^w`. -/
def padDigits : Nat → Nat → List Nat
  | 0, _ => []
  | w + 1, n => n / 10 ^ w :: padDigits w (n % 10 ^ w)

/-- Code points of the plain (untruncated) decimal form of `n`
(`Nat.digits` is little-endian, hence the reverse). -/
def decimalCodes (n : Nat) : List Nat := ((Nat.digits 10 n).map digitCode).reverse

/-- Python `"{:0wd}".format(n)` as code points: `w` zero-padded digits
when `n` fits, the untruncated decimal form otherwise (Python never
truncates).  The source only uses widths 8 and 4. -/
def pyPad (w n : Nat) : List Nat :=
  if n < 10 ^ w then (padDigits w n).map digitCode else decimalCodes n

theorem padDigits_length (w : Nat) : ∀ n, (padDigits w n).length = w := by
  induction w with
  | zero => intro n; rfl
  | succ w ih => intro n; simp [padDigits, ih]

theorem valBE_padDigits (w : Nat) : ∀ n, n < 10 ^ w → valBE (padDigits w n) = n := by
  induction w with
  | zero =>
    intro n h
    have : n = 0 := by simpa using h
    simp [this, padDigits, valBE]
  | succ w ih =>
    intro n h
    have hm : n % 10 ^ w < 10 ^ w := Nat.mod_lt _ (Nat.pos_pow_of_pos w (by norm_num))
    simp only [padDigits, valBE, padDigits_length, ih (n % 10 ^ w) hm]
    have hdm := Nat.div_add_mod n (10 ^ w)
    rw [Nat.mul_comm] at hdm
    omega

theorem padDigits_digits_lt (w : Nat) : ∀ n, n < 10 ^ w → ∀ d ∈ padDigits w n, d < 10 := by
  induction w with
  | zero => intro n _ d hd; cases hd
  | succ w ih =>
    intro n h d hd
    simp only [padDigits, List.mem_cons] at hd
    rcases hd with rfl | hd
    · have hlt : n < 10 * 10 ^ w := by
        have : (10 : Nat) ^ (w + 1) = 10 * 10 ^ w := by ring
        omega
      exact Nat.div_lt_of_lt_mul (by omega)
    · exact ih (n % 10 ^ w) (Nat.mod_lt _ (Nat.pos_pow_of_pos w (by norm_num))) d hd

theorem valBE_lt_pow {ds : List Nat} (h : ∀ d ∈ ds, d < 10) : valBE ds < 10 ^ ds.length := by
  induction ds with
  | nil => simp [valBE]
  | cons d ds ih =>
    simp only [valBE, List.length_cons, pow_succ]
    have hd : d < 10 := h d (by simp)
    have hds := ih fun x hx => h x (by simp [hx])
    calc d * 10 ^ ds.length + valBE ds < d * 10 ^ ds.length + 10 ^ ds.length := by omega
      _ = (d + 1) * 10 ^ ds.length := by ring
      _ ≤ 10 * 10 ^ ds.length := Nat.mul_le_mul_right _ (by omega)
      _ = 10 ^ ds.length * 10 := by ring

theorem valBE_head_lt {d e : Nat} {ds es : List Nat} (hlen : ds.length = es.length)
    (hds : ∀ x ∈ ds, x < 10) (hde : d < e) : valBE (d :: ds) < valBE (e :: es) := by
  simp only [valBE]
  have h1 := valBE_lt_pow hds
  rw [hlen] at h1 ⊢
  calc d * 10 ^ es.length + valBE ds < (d + 1) * 10 ^ es.length := by
        rw [add_one_mul]; omega
    _ ≤ e * 10 ^ es.length := Nat.mul_le_mul_right _ (by omega)
    _ ≤ e * 10 ^ es.length + valBE es := Nat.le_add_right _ _

/-- Inversion of lexicographic comparison at a cons. -/
theorem lex_cons_inv {a b : Nat} {l1 l2 : List Nat}
    (h : List.Lex (· < ·) (a :: l1) (b :: l2)) :
    a < b ∨ (a = b ∧ List.Lex (· < ·) l1 l2) := by
  cases h with
  | rel hr => exact Or.inl hr
  | cons ht => exact Or.inr ⟨rfl, ht⟩

/-- For equal-length digit blocks, code-point-lexicographic order is
numeric order. -/
theorem digit_lex_iff : ∀ (ds es : List Nat), ds.length = es.length →
    (∀ d ∈ ds, d < 10) → (∀ e ∈ es, e < 10) →
    (List.Lex (· < ·) (ds.map digitCode) (es.map digitCode) ↔ valBE ds < valBE es) := by
  intro ds
  induction ds with
  | nil =>
    intro es hlen _ _
    have : es = [] := List.eq_nil_of_length_eq_zero hlen.symm
    subst this
    simp only [List.map_nil]
    constructor
    · intro h; cases h
    · intro h; simp [valBE] at h
  | cons d ds ih =>
    intro es hlen hds hes
    rcases es with - | ⟨e, es⟩
    · simp at hlen
    · have hlen' : ds.length = es.length := by simpa using hlen
      have hds' : ∀ x ∈ ds, x < 10 := fun x hx => hds x (by simp [hx])
      have hes' : ∀ x ∈ es, x < 10 := fun x hx => hes x (by simp [hx])
      simp only [List.map_cons]
      constructor
      · intro h
        rcases lex_cons_inv h with hr | ⟨heq, ht⟩
        · have hde : d < e := by simp only [digitCode] at hr; omega
          exact valBE_head_lt hlen' hds' hde
        · have hde : d = e := by simp only [digitCode] at heq; omega
          subst hde
          have hv := (ih es hlen' hds' hes').mp ht
          simp only [valBE, hlen']
          omega
      · intro hv
        rcases Nat.lt_trichotomy d e with hlt | heq | hgt
        · exact List.Lex.rel (by simp only [digitCode]; omega)
        · subst heq
          have hv' : valBE ds < valBE es := by
            simp only [valBE, hlen'] at hv
            omega
          exact List.Lex.cons ((ih es hlen' hds' hes').mpr hv')
        · have := valBE_head_lt hlen'.symm hes' hgt
          omega

/-- Python string `<` on zero-padded step names is numeric order on the
steps. -/
theorem pyPad_lt_iff {w a b : Nat} (ha : a < 10 ^ w) (hb : b < 10 ^ w) :
    pyPad w a < pyPad w b ↔ a < b := by
  show List.Lex (· < ·) (pyPad w a) (pyPad w b) ↔ a < b
  rw [pyPad, pyPad, if_pos ha, if_pos hb,
    digit_lex_iff _ _ (by rw [padDigits_length, padDigits_length])
      (padDigits_digits_lt w a ha) (padDigits_digits_lt w b hb),
    valBE_padDigits w a ha, valBE_padDigits w b hb]

/-- `f.split('_')` — Python `str.split` with an explicit separator:
splits at every `'_'` (code 95) and keeps empty fields. -/
def splitU : List Nat → List (List Nat)
  | [] => [[]]
  | c :: cs =>
    if c = 95 then [] :: splitU cs
    else
      match splitU cs with
      | [] => [[c]]
      | p :: ps => (c :: p) :: ps

theorem splitU_ne_nil (f : List Nat) : splitU f ≠ [] := by
  induction f with
  | nil => simp [splitU]
  | cons c cs ih =>
    simp only [splitU]
    split
    · simp
    · rcases h : splitU cs with - | ⟨p, ps⟩ <;> simp

/-- Join split fields back with `'_'` separators (inverse of `splitU`). -/
def joinU : List (List Nat) → List Nat
  | [] => []
  | [a] => a
  | a :: rest => a ++ 95 :: joinU rest

theorem joinU_splitU : ∀ f, joinU (splitU f) = f := by
  intro f
  induction f with
  | nil => rfl
  | cons c cs ih =>
    simp only [splitU]
    split
    · rename_i hc
      subst hc
      rcases hsp : splitU cs with - | ⟨p, ps⟩
      · exact absurd hsp (splitU_ne_nil cs)
      · rw [hsp] at ih
        show joinU ([] :: p :: ps) = 95 :: cs
        simp only [joinU, List.nil_append]
        rw [ih]
    · rcases hsp : splitU cs with - | ⟨p, ps⟩
      · exact absurd hsp (splitU_ne_nil cs)
      · rw [hsp] at ih
        rcases ps with - | ⟨q, qs⟩
        · simp only [joinU] at ih ⊢
          rw [ih]
        · simp only [joinU] at ih ⊢
          rw [List.cons_append, ih]

/-- Rejoining the two split fields restores the filename. -/
theorem splitU_pair {f snap quant : List Nat} (h : splitU f = [snap, quant]) :
    f = snap ++ 95 :: quant := by
  have hj := joinU_splitU f
  rw [h] at hj
  simp only [joinU] at hj
  exact hj.symm

/-- The unsigned digit block of a Python integer literal: a nonempty
all-ASCII-digit token and its value. -/
def parseDecimal (cs : List Nat) : Option Nat :=
  if cs ≠ [] ∧ ∀ c ∈ cs, 48 ≤ c ∧ c < 58 then some (valBE (cs.map (fun c => c - 48)))
  else none

/-- Python `int(token)` on the filename tokens: an optional `'+'` (43)
or `'-'` (45) sign followed by a nonempty ASCII digit block; anything
else raises `ValueError`.  (CPython additionally accepts surrounding
whitespace, digit-group underscores — impossible here, the token was
split on `'_'` — and non-ASCII digits; `format` reproduces none of
those spellings, so such tokens fail the round-trip assertion and the
observable outcome, a fatal error, is unchanged.) -/
def parsePyInt (cs : List Nat) : Option Int :=
  match cs with
  | 43 :: ds => (parseDecimal ds).map fun n => (n : Int)
  | 45 :: ds => (parseDecimal ds).map fun n => -(n : Int)
  | ds => (parseDecimal ds).map fun n => (n : Int)

/-- Python `"{:0wd}".format(n)` for a signed `n`: a negative value
keeps its `'-'` sign, which counts toward the width, with the zero
padding inserted between the sign and the digits
(`"{:08d}".format(-5) == "-0000005"`); a non-negative value has no
sign. -/
def pyPadInt (w : Nat) (n : Int) : List Nat :=
  if n < 0 then 45 :: pyPad (w - 1) (-n).toNat else pyPad w n.toNat

/-- The code points of the literal `"grid"`. -/
def gridCodes : List Nat := [103, 114, 105, 100]

/-- One iteration of the discovery loop of `Spherical_3D.__init__` on
filename `f`: `snap, quant = f.split('_')` (the tuple unpack needs
exactly two parts), `continue` on `"grid"` files, `int()` both tokens,
then the two zero-padded round-trip asserts.  Every failure mode aborts
discovery with `MalformedFilename`; `.ok none` is the grid-file skip. -/
def Spherical_3D_parse (f : List Nat) : Except Err (Option (Int × Int)) :=
  match splitU f with
  | [snap, quant] =>
    if quant = gridCodes then .ok none
    else
      match parsePyInt snap, parsePyInt quant with
      | some s, some q =>
        if pyPadInt 8 s = snap then
          if pyPadInt 4 q = quant then .ok (some (s, q))
          else .error .malformedFilename
        else .error .malformedFilename
      | _, _ => .error .malformedFilename
  | _ => .error .malformedFilename

/-- Discovery only ever fails with `MalformedFilename`. -/
theorem Spherical_3D_parse_error {f : List Nat} {e : Err}
    (h : Spherical_3D_parse f = .error e) : e = .malformedFilename := by
  unfold Spherical_3D_parse at h
  split at h
  · split at h
    · cases h
    · split at h
      · split at h
        · split at h
          · cases h
          · cases h; rfl
        · cases h; rfl
      · cases h; rfl
  · cases h; rfl

/-- A formatted number is never shorter than the pad width. -/
theorem pyPad_length_ge (w n : Nat) : w ≤ (pyPad w n).length := by
  unfold pyPad
  split
  · simp [padDigits_length]
  · rename_i hn
    simp only [decimalCodes, List.length_reverse, List.length_map]
    have h1 := Nat.lt_base_pow_length_digits (b := 10) (m := n) (by norm_num)
    by_contra hlt
    have : (10 : Nat) ^ (Nat.digits 10 n).length ≤ 10 ^ w :=
      Nat.pow_le_pow_right (by norm_num) (by omega)
    omega

/-- **C5.** Every filename accepted by `Spherical_3D` discovery is
exactly the 8-wide zero-padded step, an underscore, and the 4-wide
zero-padded quantity of its parsed pair (Python's `format`, whose
padding covers signed values: `int()` accepts `"-0000005"` and
`"{:08d}"` reproduces it, so such names are accepted with a negative
step); a filename that does not split into exactly two fields is a
fatal error; and every non-grid filename that does not have the
round-trip form makes discovery fail with `MalformedFilename` rather
than being skipped. -/
theorem filename_roundtrip :
    (∀ (f : List Nat) (s q : Int), Spherical_3D_parse f = .ok (some (s, q)) →
      f = pyPadInt 8 s ++ 95 :: pyPadInt 4 q) ∧
    (∀ f : List Nat, (splitU f).length ≠ 2 →
      Spherical_3D_parse f = .error .malformedFilename) ∧
    (∀ f snap quant : List Nat, splitU f = [snap, quant] → quant ≠ gridCodes →
      (¬ ∃ s q : Int, f = pyPadInt 8 s ++ 95 :: pyPadInt 4 q) →
      Spherical_3D_parse f = .error .malformedFilename) := by
  have hpart1 : ∀ (f : List Nat) (s q : Int), Spherical_3D_parse f = .ok (some (s, q)) →
      f = pyPadInt 8 s ++ 95 :: pyPadInt 4 q := by
    intro f s q h
    unfold Spherical_3D_parse at h
    split at h
    · rename_i snap quant hsp
      split at h
      · simp at h
      · split at h
        · rename_i s1 q1 hps hpq
          split at h
          · rename_i hpa
            split at h
            · rename_i hpb
              simp only [Except.ok.injEq, Option.some.injEq, Prod.mk.injEq] at h
              obtain ⟨rfl, rfl⟩ := h
              rw [splitU_pair hsp, hpa, hpb]
            · cases h
          · cases h
        · cases h
    · cases h
  refine ⟨hpart1, ?_, ?_⟩
  · intro f hlen
    unfold Spherical_3D_parse
    split
    · rename_i snap quant hsp
      rw [hsp] at hlen
      simp at hlen
    · rfl
  · intro f snap quant hsp hgrid hform
    rcases hres : Spherical_3D_parse f with e | v
    · rw [Spherical_3D_parse_error hres]
    · exfalso
      rcases v with - | ⟨s, q⟩
      · unfold Spherical_3D_parse at hres
        split at hres
        · rename_i snap2 quant2 hsp2
          rw [hsp] at hsp2
          simp only [List.cons.injEq, and_true] at hsp2
          obtain ⟨rfl, hq2⟩ := hsp2
          obtain ⟨rfl, -⟩ := hq2
          split at hres
          · rename_i hg
            exact hgrid hg
          · split at hres
            · split at hres
              · split at hres
                · simp at hres
                · cases hres
              · cases hres
            · cases hres
        · cases hres
      · exact hform ⟨s, q, hpart1 f s q hres⟩

/-- A signed formatted number is never shorter than the pad width. -/
theorem pyPadInt_length_ge (w : Nat) (n : Int) : w ≤ (pyPadInt w n).length := by
  unfold pyPadInt
  split
  · simp only [List.length_cons]
    have := pyPad_length_ge (w - 1) (-n).toNat
    omega
  · exact pyPad_length_ge w n.toNat

/-- Witness for **C5**: the filename `"00000002_0123"` is accepted and
round-trips bit-exactly; the signed filename `"-0000005_0001"` — which
CPython's `int()` parses and `"{:08d}"` reproduces — is accepted with
step `-5`; and the 7-digit name `"0000002_0123"` (which cannot have the
round-trip form, by length) aborts discovery with `MalformedFilename`. -/
theorem filename_roundtrip_witness :
    [48, 48, 48, 48, 48, 48, 48, 50, 95, 48, 49, 50, 51]
      = pyPadInt 8 2 ++ 95 :: pyPadInt 4 123 ∧
    Spherical_3D_parse [45, 48, 48, 48, 48, 48, 48, 53, 95, 48, 48, 48, 49]
      = .ok (some (-5, 1)) ∧
    [45, 48, 48, 48, 48, 48, 48, 53, 95, 48, 48, 48, 49]
      = pyPadInt 8 (-5) ++ 95 :: pyPadInt 4 1 ∧
    Spherical_3D_parse [48, 48, 48, 48, 48, 48, 50, 95, 48, 49, 50, 51]
      = .error .malformedFilename := by
  refine ⟨?_, rfl, ?_, ?_⟩
  · exact filename_roundtrip.1 [48, 48, 48, 48, 48, 48, 48, 50, 95, 48, 49, 50, 51] 2 123
      rfl
  · exact filename_roundtrip.1 [45, 48, 48, 48, 48, 48, 48, 53, 95, 48, 48, 48, 49]
      (-5) 1 rfl
  · refine filename_roundtrip.2.2 [48, 48, 48, 48, 48, 48, 50, 95, 48, 49, 50, 51]
      [48, 48, 48, 48, 48, 48, 50] [48, 49, 50, 51] (by decide) (by decide) ?_
    rintro ⟨s, q, hf⟩
    have hlen : (pyPadInt 8 s ++ 95 :: pyPadInt 4 q).length = 12 := by rw [← hf]; rfl
    simp only [List.length_append, List.length_cons] at hlen
    have h8 := pyPadInt_length_ge 8 s
    have h4 := pyPadInt_length_ge 4 q
    omega

/-- The discovery loop of `Spherical_3D.__init__` over the directory
listing: parse each entry, skip grid files, abort on the first
malformed name, and collect the (step, quantity) pairs in listing
order. -/
def Spherical_3D_scanPairs : List (List Nat) → Except Err (List (Int × Int))
  | [] => .ok []
  | f :: fs =>
    match Spherical_3D_parse f with
    | .error e => .error e
    | .ok none => Spherical_3D_scanPairs fs
    | .ok (some p) => (Spherical_3D_scanPairs fs).map (fun ps => p :: ps)

/-- `list(set(..)); .sort()`: the ascending enumeration of the set of
collected values (Python's set iteration order is unspecified, but the
final in-place sort makes the result exactly this). -/
def pySortedSet (l : List Int) : List Int := List.insertionSort (· ≤ ·) l.dedup

/-- `Spherical_3D.__init__`: discovery, then `self.snaps.sort()` and
`self.quants.sort()`. -/
def Spherical_3D_scan (files : List (List Nat)) : Except Err (List Int × List Int) :=
  (Spherical_3D_scanPairs files).map fun ps =>
    (pySortedSet (ps.map Prod.fst), pySortedSet (ps.map Prod.snd))

/-- `files.sort()` in `Rayleigh_Output.__init__`: Python sorts strings
lexicographically by code point; modelled extensionally by an insertion
sort under that order (every correct sort of a linear order returns the
same list). -/
def Rayleigh_Output_sortFiles (files : List (List Nat)) : List (List Nat) :=
  List.insertionSort (· ≤ ·) files

/-- The scan only ever fails with `MalformedFilename`. -/
theorem scanPairs_error : ∀ {l : List (List Nat)} {e : Err},
    Spherical_3D_scanPairs l = .error e → e = .malformedFilename := by
  intro l
  induction l with
  | nil => intro e h; cases h
  | cons f fs ih =>
    intro e h
    simp only [Spherical_3D_scanPairs] at h
    split at h
    · rename_i e2 hp
      cases h
      exact Spherical_3D_parse_error hp
    · exact ih h
    · rename_i p hp
      rcases hl : Spherical_3D_scanPairs fs with e2 | ps <;> rw [hl] at h
      · simp only [exc_map_err] at h
        cases h
        exact ih hl
      · simp only [exc_map_ok] at h
        cases h

/-- Listing order does not matter to the scan: over permuted listings
it fails identically or yields permuted pair lists. -/
theorem scanPairs_perm {l l' : List (List Nat)} (hp : l.Perm l') :
    (Spherical_3D_scanPairs l = .error .malformedFilename ∧
     Spherical_3D_scanPairs l' = .error .malformedFilename) ∨
    (∃ ps ps', Spherical_3D_scanPairs l = .ok ps ∧ Spherical_3D_scanPairs l' = .ok ps' ∧
      ps.Perm ps') := by
  induction hp with
  | nil => exact Or.inr ⟨[], [], rfl, rfl, .nil⟩
  | cons x h ih =>
    rcases hx : Spherical_3D_parse x with e | v
    · left
      have he := Spherical_3D_parse_error hx
      subst he
      constructor <;> simp [Spherical_3D_scanPairs, hx]
    · rcases v with - | p
      · simpa only [Spherical_3D_scanPairs, hx] using ih
      · simp only [Spherical_3D_scanPairs, hx]
        rcases ih with ⟨h1, h2⟩ | ⟨ps, ps', hps, hps', hperm⟩
        · left
          rw [h1, h2]
          exact ⟨rfl, rfl⟩
        · right
          exact ⟨p :: ps, p :: ps', by rw [hps]; rfl, by rw [hps']; rfl, hperm.cons p⟩
  | swap x y l =>
    rcases hx : Spherical_3D_parse x with ex | vx <;>
      rcases hy : Spherical_3D_parse y with ey | vy
    · left
      have hex := Spherical_3D_parse_error hx
      have hey := Spherical_3D_parse_error hy
      subst hex
      subst hey
      constructor <;> simp [Spherical_3D_scanPairs, hx, hy]
    · have hex := Spherical_3D_parse_error hx
      subst hex
      rcases vy with - | p
      · left
        constructor <;> simp [Spherical_3D_scanPairs, hx, hy]
      · left
        constructor <;> simp [Spherical_3D_scanPairs, hx, hy]
    · have hey := Spherical_3D_parse_error hy
      subst hey
      rcases vx with - | p
      · left
        constructor <;> simp [Spherical_3D_scanPairs, hx, hy]
      · left
        constructor <;> simp [Spherical_3D_scanPairs, hx, hy]
    · rcases hl : Spherical_3D_scanPairs l with e | ps
      · left
        have he := scanPairs_error hl
        subst he
        rcases vx with - | p <;> rcases vy with - | q <;>
          constructor <;> simp [Spherical_3D_scanPairs, hx, hy, hl]
      · right
        rcases vx with - | p <;> rcases vy with - | q
        · exact ⟨ps, ps, by simp [Spherical_3D_scanPairs, hx, hy, hl],
            by simp [Spherical_3D_scanPairs, hx, hy, hl], .refl ps⟩
        · exact ⟨q :: ps, q :: ps, by simp [Spherical_3D_scanPairs, hx, hy, hl],
            by simp [Spherical_3D_scanPairs, hx, hy, hl], .refl _⟩
        · exact ⟨p :: ps, p :: ps, by simp [Spherical_3D_scanPairs, hx, hy, hl],
            by simp [Spherical_3D_scanPairs, hx, hy, hl], .refl _⟩
        · exact ⟨q :: p :: ps, p :: q :: ps,
            by simp [Spherical_3D_scanPairs, hx, hy, hl],
            by simp [Spherical_3D_scanPairs, hx, hy, hl], .swap p q ps⟩
  | trans h1 h2 ih1 ih2 =>
    rcases ih1 with ⟨ha, hb⟩ | ⟨ps, ps', hps, hps', hperm⟩
    · rcases ih2 with ⟨hc, hd⟩ | ⟨qs, qs', hqs, hqs', hqperm⟩
      · exact Or.inl ⟨ha, hd⟩
      · rw [hb] at hqs
        cases hqs
    · rcases ih2 with ⟨hc, hd⟩ | ⟨qs, qs', hqs, hqs', hqperm⟩
      · rw [hps'] at hc
        cases hc
      · rw [hps'] at hqs
        cases hqs
        exact Or.inr ⟨ps, qs', hps, hqs', hperm.trans hqperm⟩

/-- Permutation-invariance of the sorted set. -/
theorem pySortedSet_perm {l l' : List Int} (h : l.Perm l') :
    pySortedSet l = pySortedSet l' :=
  List.eq_of_perm_of_sorted
    (((List.perm_insertionSort _ _).trans h.dedup).trans
      (List.perm_insertionSort _ _).symm)
    (List.sorted_insertionSort _ _) (List.sorted_insertionSort _ _)

/-- The sorted set is strictly increasing. -/
theorem pySortedSet_sorted (l : List Int) : (pySortedSet l).Sorted (· < ·) := by
  have hs : (pySortedSet l).Sorted (· ≤ ·) := List.sorted_insertionSort _ _
  have hn : (pySortedSet l).Nodup :=
    ((List.perm_insertionSort _ _).nodup_iff).mpr (List.nodup_dedup l)
  exact hs.lt_of_le hn

/-- **C6.** Construction order is ascending simulation step regardless
of filesystem listing order: `Spherical_3D_scan` is invariant under
permutations of the listing and returns a numerically strictly
ascending snapshot list; `Rayleigh_Output`'s filename sort is invariant
under permutations, and on 8-digit zero-padded step names the
lexicographic filename sort equals the numeric sort of the steps. -/
theorem series_step_ordering :
    (∀ files files' : List (List Nat), files.Perm files' →
      Spherical_3D_scan files = Spherical_3D_scan files') ∧
    (∀ (files : List (List Nat)) (snaps quants : List Int),
      Spherical_3D_scan files = .ok (snaps, quants) → snaps.Sorted (· < ·)) ∧
    (∀ files files' : List (List Nat), files.Perm files' →
      Rayleigh_Output_sortFiles files = Rayleigh_Output_sortFiles files') ∧
    (∀ steps : List Nat, (∀ s ∈ steps, s < 10 ^ 8) →
      Rayleigh_Output_sortFiles (steps.map (pyPad 8))
        = (List.insertionSort (· ≤ ·) steps).map (pyPad 8) ∧
      (List.insertionSort (· ≤ ·) steps).Sorted (· ≤ ·)) := by
  refine ⟨?_, ?_, ?_, ?_⟩
  · intro files files' hp
    unfold Spherical_3D_scan
    rcases scanPairs_perm hp with ⟨h1, h2⟩ | ⟨ps, ps', hps, hps', hperm⟩
    · rw [h1, h2]
    · rw [hps, hps']
      simp only [exc_map_ok, Except.ok.injEq, Prod.mk.injEq]
      exact ⟨pySortedSet_perm (hperm.map Prod.fst), pySortedSet_perm (hperm.map Prod.snd)⟩
  · intro files snaps quants h
    unfold Spherical_3D_scan at h
    rcases hps : Spherical_3D_scanPairs files with e | ps <;> rw [hps] at h
    · cases h
    · simp only [exc_map_ok, Except.ok.injEq, Prod.mk.injEq] at h
      rw [← h.1]
      exact pySortedSet_sorted _
  · intro files files' hp
    exact List.eq_of_perm_of_sorted
      (((List.perm_insertionSort _ _).trans hp).trans (List.perm_insertionSort _ _).symm)
      (List.sorted_insertionSort _ _) (List.sorted_insertionSort _ _)
  · intro steps hb
    refine ⟨?_, List.sorted_insertionSort _ _⟩
    refine List.eq_of_perm_of_sorted ?_ (List.sorted_insertionSort _ _) ?_
    · exact (List.perm_insertionSort _ _).trans
        (((List.perm_insertionSort (· ≤ ·) steps).map _).symm)
    · have hsorted : (List.insertionSort (· ≤ ·) steps).Sorted (· ≤ ·) :=
        List.sorted_insertionSort _ _
      rw [List.Sorted, List.pairwise_map]
      refine hsorted.imp_of_mem ?_
      intro a b ha hbm hab
      have ha8 : a < 10 ^ 8 := hb a ((List.mem_insertionSort _).mp ha)
      have hb8 : b < 10 ^ 8 := hb b ((List.mem_insertionSort _).mp hbm)
      rcases lt_or_eq_of_le hab with hlt | heq
      · exact le_of_lt ((pyPad_lt_iff ha8 hb8).mpr hlt)
      · exact le_of_eq (congrArg _ heq)

/-- Code points of `"00000002_0001"` (step 2). -/
def c6f1 : List Nat := [48, 48, 48, 48, 48, 48, 48, 50, 95, 48, 48, 48, 49]

/-- Code points of `"00000001_0001"` (step 1). -/
def c6f2 : List Nat := [48, 48, 48, 48, 48, 48, 48, 49, 95, 48, 48, 48, 49]

/-- Witness for **C6**: swapping the listing order of two step files
leaves the scan unchanged; the scanned snapshot list `[1, 2]` is
strictly ascending; swapping the listing leaves the filename sort
unchanged; and on steps `[3, 1, 2]` the lexicographic sort of the
padded names is the padded numeric sort. -/
theorem series_step_ordering_witness :
    Spherical_3D_scan [c6f1, c6f2] = Spherical_3D_scan [c6f2, c6f1] ∧
    ([1, 2] : List Int).Sorted (· < ·) ∧
    Rayleigh_Output_sortFiles [c6f1, c6f2] = Rayleigh_Output_sortFiles [c6f2, c6f1] ∧
    Rayleigh_Output_sortFiles ([3, 1, 2].map (pyPad 8))
      = (List.insertionSort (· ≤ ·) [3, 1, 2]).map (pyPad 8) := by
  refine ⟨series_step_ordering.1 _ _ (List.Perm.swap c6f2 c6f1 []), ?_,
    series_step_ordering.2.2.1 _ _ (List.Perm.swap c6f2 c6f1 []),
    (series_step_ordering.2.2.2 [3, 1, 2] (by decide)).1⟩
  exact series_step_ordering.2.1 [c6f2, c6f1] [1, 2] [1] rfl
